import Mathlib

/-!
# Zabbix agent 2, S.M.A.R.T. plugin: `smartfs.go`

A shallow embedding of `src/go/plugins/smart/smartfs.go` and the properties of it that
are settled here.

Conventions of the embedding.

* The external collaborators (`executeSmartctl`, `json.Unmarshal`) are fields of `Env`:
  deterministic functions from their argument to a result or an error text.
* Go maps are association lists (`GoMap`): reading is `goGet`, `m[k] = v` is `goSet`.
* `sync.Mutex` is the flag `Runner.muxLocked`; `Lock` on a locked mutex never returns,
  which is the flow `Flow.blocked`.
* A pool is run with `cpuCount = 1`: one worker drains the queue in order.
* `Runner.calls` is a ghost field: the arguments of every `executeSmartctl` call so far.
-/

set_option linter.dupNamespace false

namespace Smart

/-! ## Data model -/

/-- Go `deviceInfo`. -/
structure DeviceInfo where
  Name : String
  DevType : String
deriving DecidableEq, Repr

/-- Go `devices`: the decoded answer of a scan. -/
structure Devices where
  Info : List DeviceInfo
deriving DecidableEq, Repr

/-- Go `message`. -/
structure Message where
  Str : String
deriving DecidableEq, Repr

/-- Go `smartctlField`. -/
structure SmartctlField where
  Messages : List Message
  ExitStatus : Int
  Version : List Int
deriving DecidableEq, Repr

/-- Go `smartctl`: the decoded answer of the version query. -/
structure Smartctl where
  Smartctl : SmartctlField
deriving DecidableEq, Repr

/-- Go `smartStatus` (the field is called `SerialNumber` in the source and holds `passed`). -/
structure SmartStatus where
  SerialNumber : Bool
deriving DecidableEq, Repr

/-- Go `table`. -/
structure Table where
  Attrname : String
  ID : Int
  Thresh : Int
deriving DecidableEq, Repr

/-- Go `smartAttributes`. -/
structure SmartAttributes where
  Table : List Table
deriving DecidableEq, Repr

/-- Go `deviceParser`; the pointer field `SmartStatus` is an `Option` (`nil` is `none`). -/
structure DeviceParser where
  ModelName : String
  SerialNumber : String
  RotationRate : Int
  Info : DeviceInfo
  Smartctl : SmartctlField
  SmartStatus : Option SmartStatus
  SmartAttributes : SmartAttributes
deriving DecidableEq, Repr

/-- Go `raidParameters`. -/
structure RaidParameters where
  name : String
  rType : String
deriving DecidableEq, Repr

/-- The two errors of `strconv.ParseFloat`. -/
inductive NumError where
  | ErrSyntax
  | ErrRange
deriving DecidableEq, Repr

/-- Errors built by the plugin: `errorf` is a finished `fmt.Errorf`/`errors.New` text,
`wrapf format cause` is `fmt.Errorf(format, cause)` around another error, and the last two
are the `zbxerr` values wrapped around their cause. -/
inductive SmartError where
  | errorf (msg : String)
  | wrapf (format : String) (cause : SmartError)
  | cannotUnmarshalJSON (cause : String)
  | cannotParseResult (cause : NumError)
deriving DecidableEq, Repr

/-- The collaborators of the plugin. `executeSmartctl args strict` runs the tool and
gives its raw output or the text of the error; the three decoders stand for
`json.Unmarshal` into `devices`, `deviceParser` and `smartctl`. -/
structure Env where
  executeSmartctl : String → Bool → Except String String
  unmarshalDevices : String → Except String Devices
  unmarshalDevice : String → Except String DeviceParser
  unmarshalSmartctl : String → Except String Smartctl

/-! ## Go maps -/

/-- A Go `map[string]β` as an association list, at most one entry per key in use. -/
abbrev GoMap (β : Type) := List (String × β)

/-- Read `m[k]`: the stored value, `none` when the key is absent. -/
def goGet {β : Type} (m : GoMap β) (k : String) : Option β :=
  match m with
  | [] => none
  | (k', v) :: rest => if k' = k then some v else goGet rest k

/-- Write `m[k] = v`: replaces the entry of `k` when there is one. -/
def goSet {β : Type} (m : GoMap β) (k : String) (v : β) : GoMap β :=
  match m with
  | [] => [(k, v)]
  | (k', v') :: rest => if k' = k then (k, v) :: rest else (k', v') :: goSet rest k v

/-! ## Device enumeration -/

/-- Go `scanDevices`. -/
def scanDevices (env : Env) (args : String) : Except SmartError (List DeviceInfo) :=
  match env.executeSmartctl args false with
  | .error e => .error (.errorf e)
  | .ok devices =>
    match env.unmarshalDevices devices with
    | .error e => .error (.cannotUnmarshalJSON e)
    | .ok d => .ok d.Info

/-- The inner loop of `getDevices`: does some entry of `basic` carry the name of `tmp`
(the `continue raid` case)? -/
def nameInBasic (tmp : DeviceInfo) : List DeviceInfo → Bool
  | [] => false
  | b :: rest => if tmp.Name = b.Name then true else nameInBasic tmp rest

/-- The labelled loop `raid:` of `getDevices`, `raid` being the slice built so far. -/
def raidLoop (basic : List DeviceInfo) : List DeviceInfo → List DeviceInfo → List DeviceInfo
  | [], raid => raid
  | tmp :: rest, raid =>
    if nameInBasic tmp basic then raidLoop basic rest raid
    else raidLoop basic rest (raid ++ [tmp])

/-- Go `getDevices`. -/
def getDevices (env : Env) : Except SmartError (List DeviceInfo × List DeviceInfo) :=
  match scanDevices env "--scan -j" with
  | .error e => .error (.wrapf "Failed to scan for devices: %s." e)
  | .ok basic =>
    match scanDevices env "--scan -d sat -j" with
    | .error e => .error (.wrapf "Failed to scan for sat devices: %s." e)
    | .ok raidTmp => .ok (basic, raidLoop basic raidTmp [])


/-! ## Version gate -/

/-- Nearest integer to `q`, a tie going to the even neighbour. -/
def roundHalfEven (q : ℚ) : ℤ :=
  if q - ⌊q⌋ < 1 / 2 then ⌊q⌋
  else if 1 / 2 < q - ⌊q⌋ then ⌊q⌋ + 1
  else if ⌊q⌋ % 2 = 0 then ⌊q⌋ else ⌊q⌋ + 1

/-- The binary64 number nearest to `x`, as `strconv.ParseFloat(_, 64)` and the conversion
of a constant to `float64` compute it: 53 significant bits, ties to even, exponent not
below -1022 (gradual underflow); `none` when the rounded magnitude reaches `2 ^ 1024`
(`ErrRange`). -/
def roundBinary64 (x : ℚ) : Option ℚ :=
  if x = 0 then some 0
  else
    let e : ℤ := max (Int.log 2 |x|) (-1022)
    let ulp : ℚ := 2 ^ (e - 52)
    let y : ℚ := roundHalfEven (|x| / ulp) * ulp
    if (2 : ℚ) ^ (1024 : ℕ) ≤ y then none
    else if x < 0 then some (-y) else some y

/-- Go `const supportedSmartctl = 7.1`, an untyped (exact) constant. -/
def supportedSmartctl : ℚ := 71 / 10

/-- Conversion of an exact constant to `float64`, as in `v < supportedSmartctl`. -/
def float64 (c : ℚ) : ℚ := (roundBinary64 c).getD 0

/-- Number of characters `%d` prints for a non-negative integer. -/
def decimalLength (n : ℕ) : ℕ := if n = 0 then 1 else (Nat.digits 10 n).length

/-- `strconv.ParseFloat(version, 64)` on the text that `evaluateVersion` builds:
`fmt.Sprintf("%d", a)` when `frac = none` and `fmt.Sprintf("%d.%d", a, b)` when
`frac = some b`. A negative `b` puts a minus sign after the point, which is a syntax
error; a negative `a` negates the whole number; otherwise the text denotes
`a + b / 10 ^ (number of digits of b)`. -/
def parseFloat (a : ℤ) (frac : Option ℤ) : Except NumError ℚ :=
  match frac with
  | none =>
    match roundBinary64 a with
    | none => .error .ErrRange
    | some f => .ok f
  | some b =>
    if b < 0 then .error .ErrSyntax
    else
      let m : ℚ := (a.natAbs : ℚ) + (b.natAbs : ℚ) / 10 ^ decimalLength b.natAbs
      match roundBinary64 (if a < 0 then -m else m) with
      | none => .error .ErrRange
      | some f => .ok f

/-- Go `evaluateVersion`. -/
def evaluateVersion (versionDigits : List ℤ) : Except SmartError Unit :=
  match versionDigits with
  | [] => .error (.errorf "Invalid smartctl version")
  | a :: rest =>
    let parsed : Except NumError ℚ :=
      match rest with
      | b :: _ => parseFloat a (some b)
      | [] => parseFloat a none
    match parsed with
    | .error err => .error (.cannotParseResult err)
    | .ok v =>
      if v < float64 supportedSmartctl then
        .error (.errorf "Incorrect smartctl version, must be 7.1 or higher")
      else .ok ()

/-- Go `time.Hour`, in nanoseconds. Instants (`time.Time`) are integers: nanoseconds
counted from the zero time, so that `IsZero` is `= 0`. -/
def hour : ℤ := 3600 * 1000000000

/-- Go `versionCheckNeeded` on the state `lastVerCheck`; `now1` and `now2` are the two
readings `time.Now()` gives, in the condition and in the assignment. Returns the answer
and the new `lastVerCheck`. -/
def versionCheckNeeded (lastVerCheck now1 now2 : ℤ) : Bool × ℤ :=
  if lastVerCheck = 0 ∨ lastVerCheck + 24 * hour < now1 then (true, now2)
  else (false, lastVerCheck)

/-- What a call of `checkVersion` leaves behind: the returned error (or none), the new
`lastVerCheck`, and the arguments of the tool invocations it made. -/
structure VersionCheck where
  result : Except SmartError Unit
  lastVerCheck : ℤ
  calls : List String

/-- Go `checkVersion`. -/
def checkVersion (env : Env) (lastVerCheck now1 now2 : ℤ) : VersionCheck :=
  let needed := versionCheckNeeded lastVerCheck now1 now2
  if needed.1 = false then ⟨.ok (), needed.2, []⟩
  else
    match env.executeSmartctl "-j -V" true with
    | .error e => ⟨.error (.errorf ("Failed to execute smartctl: " ++ e ++ ".")), needed.2, ["-j -V"]⟩
    | .ok info =>
      match env.unmarshalSmartctl info with
      | .error e => ⟨.error (.cannotUnmarshalJSON e), needed.2, ["-j -V"]⟩
      | .ok smartctl => ⟨evaluateVersion smartctl.Smartctl.Version, needed.2, ["-j -V"]⟩

/-! ## The runner -/

/-- Go `runner`: the fields the workers share. `muxLocked` is the state of `mux`, `err`
the content of the buffered channel `err`, `calls` the ghost log of tool invocations. -/
structure Runner where
  muxLocked : Bool
  err : List SmartError
  devices : List DeviceParser
  jsonDevices : GoMap String
  found : GoMap Bool
  incompleteData : List String
  calls : List String
deriving DecidableEq, Repr

/-- The runner `execute` creates. -/
def emptyRunner : Runner :=
  { muxLocked := false, err := [], devices := [], jsonDevices := [], found := [],
    incompleteData := [], calls := [] }

/-- Read `r.found[sn]`: `false` for an absent key. -/
def Runner.isFound (r : Runner) (sn : String) : Bool := (goGet r.found sn).getD false

/-- How one iteration of a worker loop ends: `next` goes on to the next queue item,
`exit` is a `return` of the worker, `blocked` is a `Lock` that never returns. -/
inductive Flow where
  | next
  | exit
  | blocked
deriving DecidableEq, Repr

/-- How a worker ends: `drained` when the closed queue is empty, `stopped` after a
`return` inside the loop, `blocked` inside a `Lock` that never returns. -/
inductive Outcome where
  | drained
  | stopped
  | blocked
deriving DecidableEq, Repr

/-- Go `checkErr`: the error text, `none` for a `nil` error. -/
def checkErr (dp : DeviceParser) : Option String :=
  if dp.Smartctl.ExitStatus ≠ 2 then none
  else
    let err : Option String :=
      dp.Smartctl.Messages.foldl
        (fun err m =>
          match err with
          | none => some m.Str
          | some e => some (e ++ ", " ++ m.Str))
        none
    match err with
    | none => some "unknown error from smartctl"
    | some e => some e

/-- The body of `if dp.SmartStatus != nil` in `getBasicDevices`, from `r.mux.Lock()` on.
The `continue` of the exit-status-4 branch leaves the loop body before `r.mux.Unlock()`. -/
def basicCritical (jsonRunner : Bool) (name devices : String) (dp : DeviceParser)
    (r : Runner) : Flow × Runner :=
  if r.muxLocked then (.blocked, r)
  else
    let r := { r with muxLocked := true }
    if r.isFound dp.SerialNumber = false then
      let r := { r with found := goSet r.found dp.SerialNumber true }
      if dp.Smartctl.ExitStatus = 4 then
        (.next, { r with incompleteData := r.incompleteData ++ [name] })
      else
        let r :=
          if jsonRunner then { r with jsonDevices := goSet r.jsonDevices name devices }
          else { r with devices := r.devices ++ [dp] }
        (.next, { r with muxLocked := false })
    else (.next, { r with muxLocked := false })

/-- The argument string of a basic query, `fmt.Sprintf("-a %s -j", name)`. -/
def basicArgs (name : String) : String := "-a " ++ name ++ " -j"

/-- One iteration of the loop of `getBasicDevices`, for the queue item `name`. -/
def basicIteration (env : Env) (jsonRunner : Bool) (name : String) (r : Runner) :
    Flow × Runner :=
  let r := { r with calls := r.calls ++ [basicArgs name] }
  match env.executeSmartctl (basicArgs name) false with
  | .error e =>
    (.exit, { r with err := r.err ++ [.errorf ("Failed to execute smartctl: " ++ e ++ ".")] })
  | .ok devices =>
    match env.unmarshalDevice devices with
    | .error e => (.exit, { r with err := r.err ++ [.cannotUnmarshalJSON e] })
    | .ok dp =>
      match checkErr dp with
      | some e =>
        (.exit, { r with
          err := r.err ++ [.errorf ("Smartctl failed to get device data: " ++ e ++ ".")] })
      | none =>
        match dp.SmartStatus with
        | none => (.next, r)
        | some _ => basicCritical jsonRunner name devices dp r

/-- Go `getBasicDevices`, one worker over the queue `names`. -/
def getBasicDevices (env : Env) (jsonRunner : Bool) : List String → Runner → Outcome × Runner
  | [], r => (.drained, r)
  | name :: names, r =>
    match basicIteration env jsonRunner name r with
    | (.next, r') => getBasicDevices env jsonRunner names r'
    | (.exit, r') => (.stopped, r')
    | (.blocked, r') => (.blocked, r')

/-- The critical sections of the basic pass executed one after the other, in the order of
the list, each for one response `(name, raw output, decoded record)`: an interleaving of
any number of workers, as the shared state sees it. A section that cannot take the mutex
does not run. -/
def runCritical (jsonRunner : Bool) : List (String × String × DeviceParser) → Runner → Runner
  | [], r => r
  | (name, devices, dp) :: rest, r =>
    runCritical jsonRunner rest (basicCritical jsonRunner name devices dp r).2

/-- The device identifier a RAID query uses. -/
def raidQueryName (raid : RaidParameters) (i : ℤ) : String :=
  if raid.rType = "sat" then raid.name ++ " -d " ++ raid.rType
  else raid.name ++ " -d " ++ raid.rType ++ "," ++ toString i

/-- The argument string of a RAID query, `fmt.Sprintf("-a %s -j ", name)`. -/
def raidArgs (raid : RaidParameters) (i : ℤ) : String := "-a " ++ raidQueryName raid i ++ " -j "

/-- One iteration of the loop of `getRaidDevices`, for the queue item `raid` and the
value `i` of the worker's index variable; returns the new value of that variable. -/
def raidIteration (env : Env) (jsonRunner : Bool) (raid : RaidParameters) (i : ℤ)
    (r : Runner) : Flow × ℤ × Runner :=
  let i := if i = 0 ∧ raid.rType = "areca" then 1 else i
  let r := { r with calls := r.calls ++ [raidArgs raid i] }
  match env.executeSmartctl (raidArgs raid i) false with
  | .error _ => (.exit, i, r)
  | .ok device =>
    match env.unmarshalDevice device with
    | .error _ => (.exit, i, r)
    | .ok dp =>
      match checkErr dp with
      | some _ => (.exit, i, r)
      | none =>
        match dp.SmartStatus with
        | none => (.next, i + 1, r)
        | some _ =>
          let dp :=
            { dp with
              Info := { dp.Info with Name := raid.name ++ " " ++ raid.rType ++ "," ++ toString i } }
          if r.muxLocked then (.blocked, i, r)
          else
            let r := { r with muxLocked := true }
            let r :=
              if jsonRunner then { r with jsonDevices := goSet r.jsonDevices dp.Info.Name device }
              else { r with devices := r.devices ++ [dp] }
            if raid.rType = "sat" then (.exit, i, r)
            else (.next, i + 1, { r with muxLocked := false })

/-- Go `getRaidDevices`, one worker over the queue `raids`; `i` is the worker's index
variable (`var i int`, declared before the loop). -/
def getRaidDevicesFrom (env : Env) (jsonRunner : Bool) :
    List RaidParameters → ℤ → Runner → Outcome × Runner
  | [], _, r => (.drained, r)
  | raid :: raids, i, r =>
    match raidIteration env jsonRunner raid i r with
    | (.next, i', r') => getRaidDevicesFrom env jsonRunner raids i' r'
    | (.exit, _, r') => (.stopped, r')
    | (.blocked, _, r') => (.blocked, r')

/-- Go `getRaidDevices`: the index variable starts at its zero value. -/
def getRaidDevices (env : Env) (jsonRunner : Bool) (raids : List RaidParameters)
    (r : Runner) : Outcome × Runner :=
  getRaidDevicesFrom env jsonRunner raids 0 r

/-- The RAID types `execute` looks for. -/
def raidTypes : List String := ["3ware", "areca", "cciss", "megaraid", "sat"]

/-- The queue `r.raids` that `execute` fills: every RAID type for every device, device
by device. -/
def raidTasks : List DeviceInfo → List RaidParameters
  | [] => []
  | rDev :: rest => raidTypes.map (fun rType => ⟨rDev.Name, rType⟩) ++ raidTasks rest

/-- The RAID candidates of `execute`: the scan candidates followed by the devices of
`r.incompleteData`. -/
def raidCandidates (raidDev : List DeviceInfo) (incompleteData : List String) :
    List DeviceInfo :=
  raidDev ++ incompleteData.map (fun dev => { Name := dev, DevType := "" })

/-- How a call of `execute` ends: it returns the runner, it returns an error, or it never
returns because the worker it waits for is blocked. -/
inductive ExecuteResult where
  | returned (r : Runner)
  | failed (err : SmartError)
  | hung (r : Runner)
deriving DecidableEq, Repr

/-- Go `execute` with `cpuCount = 1`. `waitForExecution` returns the error the worker
sent, returns `nil` once the worker is done, and waits forever for a blocked worker;
`waitForRaidExecution` waits until the worker is done. -/
def execute (env : Env) (jsonRunner : Bool) : ExecuteResult :=
  match getDevices env with
  | .error err => .failed err
  | .ok (basicDev, raidDev) =>
    match getBasicDevices env jsonRunner (basicDev.map (·.Name)) emptyRunner with
    | (.blocked, r) => .hung r
    | (.stopped, r) =>
      match r.err with
      | err :: _ => .failed err
      | [] => .hung r
    | (.drained, r) =>
      match getRaidDevices env jsonRunner (raidTasks (raidCandidates raidDev r.incompleteData)) r with
      | (.blocked, r') => .hung r'
      | (_, r') => .returned r'

/-! ## Vocabulary of the statements -/

/-- The answer of the tool to the basic query for `name`, when the invocation and the
decoding both succeed: the raw output and the decoded record. -/
def basicResponse (env : Env) (name : String) : Option (String × DeviceParser) :=
  match env.executeSmartctl (basicArgs name) false with
  | .error _ => none
  | .ok raw =>
    match env.unmarshalDevice raw with
    | .error _ => none
    | .ok dp => some (raw, dp)

/-- Everything recorded by the basic pass stems from a response to one of `names` that
carries a health-status block. -/
def BasicProvenance (env : Env) (names : List String) (r : Runner) : Prop :=
  (∀ dp ∈ r.devices, dp.SmartStatus.isSome = true
      ∧ ∃ name ∈ names, ∃ raw, basicResponse env name = some (raw, dp))
    ∧ (∀ kv ∈ r.jsonDevices, kv.1 ∈ names
      ∧ ∃ dp, basicResponse env kv.1 = some (kv.2, dp) ∧ dp.SmartStatus.isSome = true)
    ∧ (∀ name ∈ r.incompleteData, name ∈ names
      ∧ ∃ raw dp, basicResponse env name = some (raw, dp) ∧ dp.SmartStatus.isSome = true)

/-- Every serial number of a record in `r.devices` is marked in `r.found` and occurs in
`r.devices` exactly once. -/
def SerialInvariant (r : Runner) : Prop :=
  ∀ dp ∈ r.devices, r.isFound dp.SerialNumber = true
    ∧ (r.devices.map (·.SerialNumber)).count dp.SerialNumber = 1

/-- The response to the basic query for `name` does not fail: the invocation and the
decoding succeed and the tool reports no error of its own (`checkErr`). -/
def Responds (env : Env) (name : String) : Prop :=
  ∃ raw dp, basicResponse env name = some (raw, dp) ∧ checkErr dp = none

/-- The response to the basic query for `name` is `raw`, decoded as `dp`, and carries a
health-status block. -/
def Checked (env : Env) (name raw : String) (dp : DeviceParser) : Prop :=
  basicResponse env name = some (raw, dp) ∧ dp.SmartStatus.isSome = true

/-- The health-checked responses of `a` and `b` carry different serial numbers. -/
def DistinctSerial (env : Env) (a b : String) : Prop :=
  ∀ ra da rb db, Checked env a ra da → Checked env b rb db →
    da.SerialNumber ≠ db.SerialNumber

/-- No health-checked response of `name` has the embedded exit status 4. -/
def NotIncomplete (env : Env) (name : String) : Prop :=
  ∀ raw dp, Checked env name raw dp → dp.Smartctl.ExitStatus ≠ 4

/-- The state of the runner once the names `done` have been processed, all with
complete and distinct answers: the mutex is free, nothing is incomplete, and the marked
serial numbers, the records and the raw outputs are those of the health-checked
responses. -/
def BasicDone (env : Env) (jsonRunner : Bool) (done : List String) (r : Runner) : Prop :=
  r.muxLocked = false
    ∧ r.incompleteData = []
    ∧ (∀ sn, r.isFound sn = true
        ↔ ∃ n ∈ done, ∃ raw dp, Checked env n raw dp ∧ dp.SerialNumber = sn)
    ∧ (∀ dp, dp ∈ r.devices
        ↔ jsonRunner = false ∧ ∃ n ∈ done, ∃ raw, Checked env n raw dp)
    ∧ (∀ k v, goGet r.jsonDevices k = some v
        ↔ jsonRunner = true ∧ k ∈ done ∧ ∃ dp, Checked env k v dp)

/-! ## Sample tool answers

Decoded records and tools used to evaluate the functions above on concrete inputs. -/

/-- A decoded answer with the given serial number, embedded exit status and presence of
the health-status block. -/
def sampleRecord (serial : String) (exitStatus : ℤ) (health : Bool) : DeviceParser :=
  { ModelName := "model", SerialNumber := serial, RotationRate := 7200,
    Info := { Name := "", DevType := "sat" },
    Smartctl := { Messages := [], ExitStatus := exitStatus, Version := [7, 1] },
    SmartStatus := if health then some { SerialNumber := true } else none,
    SmartAttributes := { Table := [] } }

/-- The raw output the table `answers` gives for the invocation `args`. -/
def sampleOutput (answers : List (String × String × DeviceParser)) (args : String) :
    Option String :=
  match answers with
  | [] => none
  | (args', raw, _) :: rest => if args' = args then some raw else sampleOutput rest args

/-- The record the table `answers` decodes the raw output `raw` to. -/
def sampleDecode (answers : List (String × String × DeviceParser)) (raw : String) :
    Option DeviceParser :=
  match answers with
  | [] => none
  | (_, raw', dp) :: rest => if raw' = raw then some dp else sampleDecode rest raw

/-- A sample tool. The plain scan reports the devices `scan`, the scan with `-d sat` the
devices `satScan`; `answers` lists device queries that succeed: the argument string, the
raw output and its decoding. Every other device query gets the answer `otherwise`, and
fails when that is `none`. -/
def sampleEnv (scan satScan : List String) (answers : List (String × String × DeviceParser))
    (otherwise : Option (String × DeviceParser)) : Env :=
  { executeSmartctl := fun args _ =>
      if args = "--scan -j" then .ok "scan"
      else if args = "--scan -d sat -j" then .ok "scan -d sat"
      else
        match sampleOutput answers args, otherwise with
        | some raw, _ => .ok raw
        | none, some (raw, _) => .ok raw
        | none, none => .error "exit status 1"
    unmarshalDevices := fun raw =>
      if raw = "scan" then .ok { Info := scan.map (fun n => { Name := n, DevType := "scsi" }) }
      else if raw = "scan -d sat" then
        .ok { Info := satScan.map (fun n => { Name := n, DevType := "sat" }) }
      else .error "unexpected end of JSON input"
    unmarshalDevice := fun raw =>
      match sampleDecode answers raw, otherwise with
      | some dp, _ => .ok dp
      | none, some (raw', dp) => if raw' = raw then .ok dp else .error "unexpected end of JSON input"
      | none, none => .error "unexpected end of JSON input"
    unmarshalSmartctl := fun _ =>
      .ok { Smartctl := { Messages := [], ExitStatus := 0, Version := [7, 1] } } }

/-- Two plain devices, both answering with a health-status block, exit status 4 and
serial numbers of their own. -/
def twoIncomplete : Env :=
  sampleEnv ["/dev/sda", "/dev/sdb"] []
    [("-a /dev/sda -j", "json sda", sampleRecord "S1" 4 true),
     ("-a /dev/sdb -j", "json sdb", sampleRecord "S2" 4 true)]
    none

/-- One RAID candidate; every device query succeeds, with exit status 0 and without a
health-status block. -/
def quietRaid : Env :=
  sampleEnv [] ["/dev/sda"] [] (some ("json", sampleRecord "S0" 0 false))

/-- One RAID candidate with two member disks behind a 3ware controller: the queries for
`3ware,0` and `3ware,1` succeed with a health-status block, every other query fails. -/
def twoMembers : Env :=
  sampleEnv [] ["/dev/sda"]
    [("-a /dev/sda -d 3ware,0 -j ", "json 0", sampleRecord "M0" 0 true),
     ("-a /dev/sda -d 3ware,1 -j ", "json 1", sampleRecord "M1" 0 true)]
    none

/-- One RAID candidate of which only the `sat` query succeeds, with a health-status
block. -/
def satOnly : Env :=
  sampleEnv [] ["/dev/sda"]
    [("-a /dev/sda -d sat -j ", "json sat", sampleRecord "S1" 0 true)]
    none

/-- Two plain devices that report the same serial number, both with a health-status
block and exit status 0. -/
def sameSerial : Env :=
  sampleEnv ["/dev/sda", "/dev/sdb"] []
    [("-a /dev/sda -j", "json sda", { sampleRecord "X1" 0 true with ModelName := "first" }),
     ("-a /dev/sdb -j", "json sdb", { sampleRecord "X1" 0 true with ModelName := "second" })]
    none

/-- Two plain devices with serial numbers of their own, both with a health-status block
and exit status 0. -/
def twoHealthy : Env :=
  sampleEnv ["/dev/sda", "/dev/sdb"] []
    [("-a /dev/sda -j", "json sda", sampleRecord "S1" 0 true),
     ("-a /dev/sdb -j", "json sdb", sampleRecord "S2" 0 true)]
    none

/-- Two scans that overlap: the plain scan reports `/dev/sda`, the scan with `-d sat`
reports `/dev/sda` and `/dev/sdb`. -/
def overlappingScans : Env :=
  sampleEnv ["/dev/sda"] ["/dev/sda", "/dev/sdb"] [] none

/-! ## Theorems -/

/-! ### Device enumeration -/


theorem nameInBasic_iff (tmp : DeviceInfo) (basic : List DeviceInfo) :
    nameInBasic tmp basic = true ↔ ∃ b ∈ basic, tmp.Name = b.Name := by
  induction basic with
  | nil => simp [nameInBasic]
  | cons b rest ih =>
    by_cases h : tmp.Name = b.Name
    · simp [nameInBasic, h]
    · simp [nameInBasic, h, ih]

theorem raidLoop_eq (basic : List DeviceInfo) (raidTmp raid : List DeviceInfo) :
    raidLoop basic raidTmp raid
      = raid ++ raidTmp.filter (fun tmp => !nameInBasic tmp basic) := by
  induction raidTmp generalizing raid with
  | nil => simp [raidLoop]
  | cons tmp rest ih =>
    by_cases h : nameInBasic tmp basic = true
    · simp [raidLoop, h, ih]
    · simp [raidLoop, h, ih]

/-- C2: when both scans succeed and decode to `B` and `S`, `getDevices` returns `B`
unchanged and, as `raid`, the entries of `S` in their order whose name is the name of no
entry of `B`; so no name occurs in both returned lists. -/
theorem getDevices_basic_and_raid (env : Env) (B S : List DeviceInfo)
    (hB : scanDevices env "--scan -j" = .ok B)
    (hS : scanDevices env "--scan -d sat -j" = .ok S) :
    getDevices env
        = .ok (B, S.filter (fun tmp => decide (∀ b ∈ B, tmp.Name ≠ b.Name)))
      ∧ ∀ basic raid, getDevices env = .ok (basic, raid) →
          ∀ b ∈ basic, ∀ t ∈ raid, t.Name ≠ b.Name := by
  have key : getDevices env
      = .ok (B, S.filter (fun tmp => decide (∀ b ∈ B, tmp.Name ≠ b.Name))) := by
    simp only [getDevices, hB, hS, raidLoop_eq, List.nil_append]
    congr 2
    apply List.filter_congr
    intro tmp _
    by_cases h : nameInBasic tmp B = true
    · have h' := (nameInBasic_iff tmp B).1 h
      simp only [h, Bool.not_true]
      symm
      simp only [decide_eq_false_iff_not, not_forall]
      obtain ⟨b, hb, hn⟩ := h'
      exact ⟨b, hb, fun hne => hne hn⟩
    · have h' : ¬ ∃ b ∈ B, tmp.Name = b.Name := fun hex => h ((nameInBasic_iff tmp B).2 hex)
      simp only [Bool.not_eq_true] at h
      simp only [h, Bool.not_false]
      symm
      simp only [decide_eq_true_eq]
      intro b hb hn
      exact h' ⟨b, hb, hn⟩
  refine ⟨key, ?_⟩
  intro basic raid hget b hb t ht
  rw [key] at hget
  injection hget with hget
  injection hget with h1 h2
  subst h1
  subst h2
  have := (List.mem_filter.1 ht).2
  simp only [decide_eq_true_eq] at this
  exact this b hb


theorem getDevices_basic_and_raid_witness :
    getDevices overlappingScans
        = .ok ([{ Name := "/dev/sda", DevType := "scsi" }],
            [{ Name := "/dev/sda", DevType := "sat" }, { Name := "/dev/sdb", DevType := "sat" }].filter
              (fun tmp => decide (∀ b ∈ [({ Name := "/dev/sda", DevType := "scsi" } : DeviceInfo)],
                tmp.Name ≠ b.Name)))
      ∧ ∀ basic raid, getDevices overlappingScans = .ok (basic, raid) →
          ∀ b ∈ basic, ∀ t ∈ raid, t.Name ≠ b.Name :=
  getDevices_basic_and_raid overlappingScans
    [{ Name := "/dev/sda", DevType := "scsi" }]
    [{ Name := "/dev/sda", DevType := "sat" }, { Name := "/dev/sdb", DevType := "sat" }]
    rfl rfl

/-! ### Version evaluation -/

theorem roundHalfEven_floor_le (q : ℚ) : ⌊q⌋ ≤ roundHalfEven q := by
  unfold roundHalfEven
  split_ifs <;> omega

theorem roundHalfEven_le_floor_succ (q : ℚ) : roundHalfEven q ≤ ⌊q⌋ + 1 := by
  unfold roundHalfEven
  split_ifs <;> omega

theorem roundHalfEven_intCast (n : ℤ) : roundHalfEven (n : ℚ) = n := by
  unfold roundHalfEven
  simp

theorem le_roundHalfEven {n : ℤ} {q : ℚ} (h : (n : ℚ) ≤ q) : n ≤ roundHalfEven q :=
  le_trans (Int.le_floor.2 h) (roundHalfEven_floor_le q)

theorem roundHalfEven_le {n : ℤ} {q : ℚ} (h : q ≤ (n : ℚ)) : roundHalfEven q ≤ n := by
  rcases eq_or_lt_of_le h with h | h
  · rw [h, roundHalfEven_intCast]
  · have : ⌊q⌋ < n := Int.floor_lt.2 h
    have := roundHalfEven_le_floor_succ q
    omega

theorem roundHalfEven_mono {p q : ℚ} (h : p ≤ q) : roundHalfEven p ≤ roundHalfEven q := by
  rcases eq_or_lt_of_le (Int.floor_mono h) with hf | hf
  · unfold roundHalfEven
    rw [hf]
    have hd : p - ⌊q⌋ ≤ q - ⌊q⌋ := by linarith
    split_ifs <;> first | omega | (exfalso; linarith)
  · have h1 := roundHalfEven_le_floor_succ p
    have h2 := roundHalfEven_floor_le q
    omega

theorem log_eq_of_binade {x : ℚ} {k : ℤ} (hlo : (2 : ℚ) ^ k ≤ x) (hhi : x < (2 : ℚ) ^ (k + 1)) :
    Int.log 2 x = k := by
  have hx : 0 < x := lt_of_lt_of_le (zpow_pos (by norm_num) k) hlo
  have h1 : k ≤ Int.log 2 x := (Int.zpow_le_iff_le_log (by norm_num) hx).1 (by exact_mod_cast hlo)
  have h2 : Int.log 2 x < k + 1 := (Int.lt_zpow_iff_log_lt (by norm_num) hx).1 (by exact_mod_cast hhi)
  omega

/-- Inside a binade of the normal range the rounding is that of the significand. -/
theorem roundBinary64_binade {x : ℚ} {k : ℤ} (hk : -1022 ≤ k) (hk' : k ≤ 1022)
    (hlo : (2 : ℚ) ^ k ≤ x) (hhi : x < (2 : ℚ) ^ (k + 1)) :
    roundBinary64 x = some ((roundHalfEven (x / 2 ^ (k - 52)) : ℚ) * 2 ^ (k - 52))
      ∧ (2 : ℚ) ^ k ≤ (roundHalfEven (x / 2 ^ (k - 52)) : ℚ) * 2 ^ (k - 52)
      ∧ (roundHalfEven (x / 2 ^ (k - 52)) : ℚ) * 2 ^ (k - 52) ≤ 2 ^ (k + 1) := by
  have hx : 0 < x := lt_of_lt_of_le (zpow_pos (by norm_num) k) hlo
  have hu : (0 : ℚ) < 2 ^ (k - 52) := zpow_pos (by norm_num) _
  have e1 : (2 : ℚ) ^ k = 2 ^ (52 : ℕ) * 2 ^ (k - 52) := by
    rw [← zpow_natCast, ← zpow_add₀ (by norm_num)]
    congr 1
    push_cast
    ring
  have e2 : (2 : ℚ) ^ (k + 1) = 2 ^ (53 : ℕ) * 2 ^ (k - 52) := by
    rw [← zpow_natCast, ← zpow_add₀ (by norm_num)]
    congr 1
    push_cast
    ring
  have m1 : ((2 ^ 52 : ℤ) : ℚ) ≤ x / 2 ^ (k - 52) := by
    rw [le_div_iff₀ hu]
    simp only [Int.cast_pow, Int.cast_ofNat]
    rw [← e1]
    exact hlo
  have m2 : x / 2 ^ (k - 52) ≤ ((2 ^ 53 : ℤ) : ℚ) := by
    rw [div_le_iff₀ hu]
    simp only [Int.cast_pow, Int.cast_ofNat]
    rw [← e2]
    exact le_of_lt hhi
  have r1 : (2 ^ 52 : ℤ) ≤ roundHalfEven (x / 2 ^ (k - 52)) := le_roundHalfEven m1
  have r2 : roundHalfEven (x / 2 ^ (k - 52)) ≤ (2 ^ 53 : ℤ) := roundHalfEven_le m2
  have y1 : (2 : ℚ) ^ k ≤ (roundHalfEven (x / 2 ^ (k - 52)) : ℚ) * 2 ^ (k - 52) := by
    rw [e1]
    apply mul_le_mul_of_nonneg_right _ (le_of_lt hu)
    exact_mod_cast r1
  have y2 : (roundHalfEven (x / 2 ^ (k - 52)) : ℚ) * 2 ^ (k - 52) ≤ 2 ^ (k + 1) := by
    rw [e2]
    apply mul_le_mul_of_nonneg_right _ (le_of_lt hu)
    exact_mod_cast r2
  refine ⟨?_, y1, y2⟩
  have hlog : Int.log 2 x = k := log_eq_of_binade hlo hhi
  have hbig : ¬ ((2 : ℚ) ^ (1024 : ℕ) ≤ (roundHalfEven (x / 2 ^ (k - 52)) : ℚ) * 2 ^ (k - 52)) := by
    intro hc
    have h3 : (2 : ℚ) ^ (k + 1) ≤ 2 ^ ((1023 : ℕ) : ℤ) :=
      zpow_le_zpow_right₀ (by norm_num) (by push_cast; omega)
    rw [zpow_natCast] at h3
    have h4 : (2 : ℚ) ^ (1023 : ℕ) < 2 ^ (1024 : ℕ) := by
      apply pow_lt_pow_right₀ (by norm_num) (by norm_num)
    linarith
  unfold roundBinary64
  simp only [abs_of_pos hx, hlog, ne_of_gt hx, if_false, max_eq_left hk, hbig, not_lt_of_gt hx]

theorem ulp_two : (2 : ℚ) ^ ((2 : ℤ) - 52) = 1 / 2 ^ (50 : ℕ) := by
  have : (2 : ℤ) - 52 = -((50 : ℕ) : ℤ) := by norm_num
  rw [this, zpow_neg, zpow_natCast, one_div]

theorem float64_supported :
    float64 supportedSmartctl
      = (roundHalfEven (71 / 10 / 2 ^ ((2 : ℤ) - 52)) : ℚ) * 2 ^ ((2 : ℤ) - 52) := by
  have h := (roundBinary64_binade (x := 71 / 10) (k := 2) (by norm_num) (by norm_num)
    (by norm_num) (by norm_num)).1
  simp only [float64, supportedSmartctl, h, Option.getD_some]

theorem seven_lt_float64_supported : (7 : ℚ) < float64 supportedSmartctl := by
  rw [float64_supported]
  have h : (7 * 2 ^ 50 + 1 : ℤ) ≤ roundHalfEven (71 / 10 / 2 ^ ((2 : ℤ) - 52)) := by
    apply le_roundHalfEven
    rw [ulp_two]
    norm_num
  have h' : ((7 * 2 ^ 50 + 1 : ℤ) : ℚ) ≤ (roundHalfEven (71 / 10 / 2 ^ ((2 : ℤ) - 52)) : ℚ) := by
    exact_mod_cast h
  have hu : (0 : ℚ) < 2 ^ ((2 : ℤ) - 52) := zpow_pos (by norm_num) _
  calc (7 : ℚ) < ((7 * 2 ^ 50 + 1 : ℤ) : ℚ) * 2 ^ ((2 : ℤ) - 52) := by
        rw [ulp_two]; norm_num
    _ ≤ _ := mul_le_mul_of_nonneg_right h' (le_of_lt hu)

theorem float64_supported_le_eight : float64 supportedSmartctl ≤ 8 := by
  have h := (roundBinary64_binade (x := 71 / 10) (k := 2) (by norm_num) (by norm_num)
    (by norm_num) (by norm_num)).2.2
  rw [float64_supported]
  calc _ ≤ (2 : ℚ) ^ ((2 : ℤ) + 1) := h
    _ = 8 := by norm_num

/-- Order of a rounded value against the rounded minimum. -/
theorem roundBinary64_compare {x : ℚ} (h0 : x = 0 ∨ 1 / 16 ≤ x) (hx : x < 2 ^ (64 : ℕ)) :
    ∃ y, roundBinary64 x = some y
      ∧ (71 / 10 ≤ x → float64 supportedSmartctl ≤ y)
      ∧ (x ≤ 7 → y < float64 supportedSmartctl) := by
  rcases h0 with h0 | h0
  · subst h0
    refine ⟨0, by simp [roundBinary64], fun h => by norm_num at h, fun _ => ?_⟩
    linarith [seven_lt_float64_supported]
  · have hpos : 0 < x := by linarith
    have hlo : (2 : ℚ) ^ Int.log 2 x ≤ x := by
      exact_mod_cast Int.zpow_log_le_self (b := 2) (by norm_num) hpos
    have hhi : x < (2 : ℚ) ^ (Int.log 2 x + 1) := by
      exact_mod_cast Int.lt_zpow_succ_log_self (b := 2) (by norm_num) x
    have hk1 : -4 ≤ Int.log 2 x := by
      apply (Int.zpow_le_iff_le_log (b := 2) (by norm_num) hpos).1
      norm_num
      linarith
    have hk2 : Int.log 2 x < 64 := by
      apply (Int.lt_zpow_iff_log_lt (b := 2) (by norm_num) hpos).1
      norm_num
      linarith
    obtain ⟨e, y1, y2⟩ := roundBinary64_binade (x := x) (k := Int.log 2 x) (by omega) (by omega)
      hlo hhi
    refine ⟨_, e, ?_, ?_⟩
    · intro h71
      have hk3 : 2 ≤ Int.log 2 x := by
        apply (Int.zpow_le_iff_le_log (b := 2) (by norm_num) hpos).1
        norm_num
        linarith
      rcases eq_or_lt_of_le hk3 with hk | hk
      · rw [← hk, float64_supported]
        have hu : (0 : ℚ) < 2 ^ ((2 : ℤ) - 52) := zpow_pos (by norm_num) _
        apply mul_le_mul_of_nonneg_right _ (le_of_lt hu)
        have : roundHalfEven (71 / 10 / 2 ^ ((2 : ℤ) - 52))
            ≤ roundHalfEven (x / 2 ^ ((2 : ℤ) - 52)) :=
          roundHalfEven_mono (div_le_div_of_nonneg_right h71 (le_of_lt hu))
        exact_mod_cast this
      · have h8 : (2 : ℚ) ^ (3 : ℤ) ≤ 2 ^ Int.log 2 x :=
          zpow_le_zpow_right₀ (by norm_num) (by omega)
        have : (2 : ℚ) ^ (3 : ℤ) = 8 := by norm_num
        linarith [float64_supported_le_eight]
    · intro h7
      have hk3 : Int.log 2 x < 3 := by
        apply (Int.lt_zpow_iff_log_lt (b := 2) (by norm_num) hpos).1
        norm_num
        linarith
      by_cases hk : Int.log 2 x = 2
      · rw [hk]
        have hu : (0 : ℚ) < 2 ^ ((2 : ℤ) - 52) := zpow_pos (by norm_num) _
        have h : roundHalfEven (x / 2 ^ ((2 : ℤ) - 52)) ≤ (7 * 2 ^ 50 : ℤ) := by
          apply roundHalfEven_le
          rw [div_le_iff₀ hu, ulp_two]
          norm_num
          exact h7
        have h' : (roundHalfEven (x / 2 ^ ((2 : ℤ) - 52)) : ℚ) ≤ ((7 * 2 ^ 50 : ℤ) : ℚ) := by
          exact_mod_cast h
        calc (roundHalfEven (x / 2 ^ ((2 : ℤ) - 52)) : ℚ) * 2 ^ ((2 : ℤ) - 52)
            ≤ ((7 * 2 ^ 50 : ℤ) : ℚ) * 2 ^ ((2 : ℤ) - 52) :=
              mul_le_mul_of_nonneg_right h' (le_of_lt hu)
          _ = 7 := by rw [ulp_two]; norm_num
          _ < _ := seven_lt_float64_supported
      · have h4 : (2 : ℚ) ^ (Int.log 2 x + 1) ≤ 2 ^ (2 : ℤ) :=
          zpow_le_zpow_right₀ (by norm_num) (by omega)
        have : (2 : ℚ) ^ (2 : ℤ) = 4 := by norm_num
        linarith [seven_lt_float64_supported]

theorem decimal_fraction_lt_one (n : ℕ) : (n : ℚ) / 10 ^ decimalLength n < 1 := by
  have hpos : (0 : ℚ) < 10 ^ decimalLength n := by positivity
  rw [div_lt_one hpos]
  unfold decimalLength
  split_ifs with h
  · subst h; norm_num
  · exact_mod_cast Nat.lt_base_pow_length_digits (b := 10) (m := n) (by norm_num)

theorem decimal_fraction_ge_tenth {n : ℕ} (hn : 1 ≤ n) :
    (1 : ℚ) / 10 ≤ (n : ℚ) / 10 ^ decimalLength n := by
  have hpos : (0 : ℚ) < 10 ^ decimalLength n := by positivity
  rw [le_div_iff₀ hpos]
  unfold decimalLength
  have h0 : n ≠ 0 := by omega
  simp only [h0, if_false]
  have h := Nat.base_pow_length_digits_le 10 n (by norm_num) h0
  have h' : ((10 : ℕ) : ℚ) ^ (Nat.digits 10 n).length ≤ ((10 : ℕ) : ℚ) * (n : ℚ) := by
    exact_mod_cast h
  push_cast at h'
  linarith

/-- With a non-negative first component and no second one. -/
theorem evaluateVersion_single {a : ℤ} (h0 : 0 ≤ a) (h1 : a < 2 ^ 63) :
    evaluateVersion [a] = .ok () ↔ 8 ≤ a := by
  have hq0 : (0 : ℚ) ≤ (a : ℚ) := by exact_mod_cast h0
  have hx0 : (a : ℚ) = 0 ∨ 1 / 16 ≤ (a : ℚ) := by
    rcases eq_or_lt_of_le h0 with h | h
    · left; rw [← h]; simp
    · right
      have : (1 : ℚ) ≤ (a : ℚ) := by exact_mod_cast h
      linarith
  have hx1 : (a : ℚ) < 2 ^ (64 : ℕ) := by
    have : (a : ℚ) < ((2 ^ 63 : ℤ) : ℚ) := by exact_mod_cast h1
    have e : ((2 ^ 63 : ℤ) : ℚ) < 2 ^ (64 : ℕ) := by norm_num
    linarith
  obtain ⟨y, hy, hge, hlt⟩ := roundBinary64_compare hx0 hx1
  simp only [evaluateVersion, parseFloat, hy]
  by_cases h8 : 8 ≤ a
  · have : (71 : ℚ) / 10 ≤ (a : ℚ) := by
      have : (8 : ℚ) ≤ (a : ℚ) := by exact_mod_cast h8
      linarith
    have := hge this
    simp [h8, not_lt.2 this]
  · have : (a : ℚ) ≤ 7 := by
      have : a ≤ 7 := by omega
      exact_mod_cast this
    have := hlt this
    simp [h8, this]

/-- With non-negative first and second components. -/
theorem evaluateVersion_pair {a b : ℤ} (rest : List ℤ) (h0 : 0 ≤ a) (h1 : a < 2 ^ 63)
    (hb : 0 ≤ b) :
    evaluateVersion (a :: b :: rest) = .ok () ↔ (8 ≤ a ∨ (a = 7 ∧ 1 ≤ b)) := by
  obtain ⟨n, rfl⟩ := Int.eq_ofNat_of_zero_le h0
  obtain ⟨m, rfl⟩ := Int.eq_ofNat_of_zero_le hb
  have hfl := decimal_fraction_lt_one m
  have hf0 : (0 : ℚ) ≤ (m : ℚ) / 10 ^ decimalLength m := by positivity
  have hn0 : (0 : ℚ) ≤ (n : ℚ) := by positivity
  have hn1 : (n : ℚ) < 2 ^ (63 : ℕ) := by exact_mod_cast h1
  obtain ⟨x, hxdef⟩ : ∃ x : ℚ, x = (n : ℚ) + (m : ℚ) / 10 ^ decimalLength m := ⟨_, rfl⟩
  have hx0 : x = 0 ∨ 1 / 16 ≤ x := by
    rcases Nat.eq_zero_or_pos n with hn | hn
    · rcases Nat.eq_zero_or_pos m with hm | hm
      · left; simp [hxdef, hn, hm]
      · right
        have := decimal_fraction_ge_tenth (n := m) hm
        linarith
    · right
      have : (1 : ℚ) ≤ (n : ℚ) := by exact_mod_cast hn
      linarith
  have hx1 : x < 2 ^ (64 : ℕ) := by
    have e : (2 : ℚ) ^ (63 : ℕ) + 1 < 2 ^ (64 : ℕ) := by norm_num
    linarith
  obtain ⟨y, hy, hge, hlt⟩ := roundBinary64_compare hx0 hx1
  have hnb : ¬ ((m : ℤ) < 0) := by omega
  have hna : ¬ ((n : ℤ) < 0) := by omega
  have hev : evaluateVersion ((n : ℤ) :: (m : ℤ) :: rest)
      = if y < float64 supportedSmartctl then
          .error (.errorf "Incorrect smartctl version, must be 7.1 or higher")
        else .ok () := by
    simp only [evaluateVersion, parseFloat, hnb, hna, if_false, Int.natAbs_ofNat, ← hxdef, hy]
  rw [hev]
  by_cases hcond : (8 ≤ (n : ℤ) ∨ ((n : ℤ) = 7 ∧ 1 ≤ (m : ℤ)))
  · have h71 : (71 : ℚ) / 10 ≤ x := by
      rcases hcond with h8 | ⟨h7, hm⟩
      · have : (8 : ℚ) ≤ (n : ℚ) := by exact_mod_cast h8
        linarith
      · have h7' : (n : ℚ) = 7 := by exact_mod_cast h7
        have hm' : 1 ≤ m := by omega
        have := decimal_fraction_ge_tenth (n := m) hm'
        linarith
    rw [if_neg (not_lt.2 (hge h71))]
    exact ⟨fun _ => hcond, fun _ => rfl⟩
  · have hx7 : x ≤ 7 := by
      have hn7 : n ≤ 7 := by omega
      rcases eq_or_lt_of_le hn7 with h7 | h7
      · have hm0 : m = 0 := by omega
        have h7' : (n : ℚ) = 7 := by exact_mod_cast h7
        rw [hxdef, hm0, h7']
        simp
      · have : (n : ℚ) ≤ 6 := by
          have : n ≤ 6 := by omega
          exact_mod_cast this
        linarith
    rw [if_pos (hlt hx7)]
    exact ⟨fun h => (by cases h), fun h => absurd h hcond⟩

/-- C1: for version components in the range of a non-negative Go `int`, `evaluateVersion`
returns no error exactly when the sequence is non-empty and its first component is at
least 8, or is 7 with a second component of at least 1; `[7,1]` and `[8]` are accepted,
`[7,0]` is rejected and `[]` is rejected with "Invalid smartctl version". -/
theorem evaluateVersion_accepts_iff (v : List ℤ) (hv : ∀ x ∈ v, 0 ≤ x ∧ x < 2 ^ 63) :
    (evaluateVersion v = .ok ()
        ↔ ∃ a, v[0]? = some a ∧ (8 ≤ a ∨ (a = 7 ∧ ∃ b, v[1]? = some b ∧ 1 ≤ b)))
      ∧ evaluateVersion [7, 1] = .ok ()
      ∧ evaluateVersion [8] = .ok ()
      ∧ evaluateVersion [7, 0] ≠ .ok ()
      ∧ evaluateVersion [] = .error (.errorf "Invalid smartctl version") := by
  refine ⟨?_, ?_, ?_, ?_, rfl⟩
  · match v, hv with
    | [], _ => simp [evaluateVersion]
    | [a], hv =>
      have ha := hv a (by simp)
      rw [evaluateVersion_single ha.1 ha.2]
      simp
    | a :: b :: rest, hv =>
      have ha := hv a (by simp)
      have hb := hv b (by simp)
      rw [evaluateVersion_pair rest ha.1 ha.2 hb.1]
      simp
  · exact (evaluateVersion_pair [] (by norm_num) (by norm_num) (by norm_num)).2
      (Or.inr ⟨rfl, by norm_num⟩)
  · exact (evaluateVersion_single (by norm_num) (by norm_num)).2 (by norm_num)
  · intro h
    have := (evaluateVersion_pair [] (a := 7) (b := 0) (by norm_num) (by norm_num)
      (by norm_num)).1 h
    omega

theorem evaluateVersion_accepts_iff_witness :
    (evaluateVersion [7, 1, 3] = .ok ()
        ↔ ∃ a, [(7 : ℤ), 1, 3][0]? = some a
            ∧ (8 ≤ a ∨ (a = 7 ∧ ∃ b, [(7 : ℤ), 1, 3][1]? = some b ∧ 1 ≤ b)))
      ∧ evaluateVersion [7, 1] = .ok ()
      ∧ evaluateVersion [8] = .ok ()
      ∧ evaluateVersion [7, 0] ≠ .ok ()
      ∧ evaluateVersion [] = .error (.errorf "Invalid smartctl version") :=
  evaluateVersion_accepts_iff [7, 1, 3] (by decide)

/-! ### Go maps -/

theorem goGet_goSet {β : Type} (m : GoMap β) (k k' : String) (v : β) :
    goGet (goSet m k v) k' = if k = k' then some v else goGet m k' := by
  induction m with
  | nil =>
    by_cases h : k = k' <;> simp [goSet, goGet, h]
  | cons p rest ih =>
    obtain ⟨k0, v0⟩ := p
    by_cases h0 : k0 = k
    · subst h0
      by_cases h : k0 = k' <;> simp [goSet, goGet, h]
    · by_cases h : k = k'
      · subst h
        simp [goSet, goGet, h0, ih]
      · have h0' : ¬ k' = k := fun e => h e.symm
        by_cases h1 : k0 = k' <;> simp [goSet, goGet, h0, h0', h1, h, ih]

theorem mem_goSet {β : Type} (m : GoMap β) (k : String) (v : β) (p : String × β)
    (hp : p ∈ goSet m k v) : p = (k, v) ∨ p ∈ m := by
  induction m with
  | nil =>
    simp only [goSet, List.mem_singleton] at hp
    exact Or.inl hp
  | cons q rest ih =>
    obtain ⟨k0, v0⟩ := q
    by_cases h0 : k0 = k
    · simp only [goSet, h0, if_true, List.mem_cons] at hp
      rcases hp with hp | hp
      · exact Or.inl hp
      · exact Or.inr (List.mem_cons_of_mem _ hp)
    · simp only [goSet, h0, if_false, List.mem_cons] at hp
      rcases hp with hp | hp
      · exact Or.inr (by rw [hp]; exact List.mem_cons_self _ _)
      · rcases ih hp with h | h
        · exact Or.inl h
        · exact Or.inr (List.mem_cons_of_mem _ h)

theorem mem_of_goGet {β : Type} (m : GoMap β) (k : String) (v : β)
    (h : goGet m k = some v) : (k, v) ∈ m := by
  induction m with
  | nil => simp [goGet] at h
  | cons q rest ih =>
    obtain ⟨k0, v0⟩ := q
    by_cases h0 : k0 = k
    · simp only [goGet, h0, if_true, Option.some.injEq] at h
      rw [h0, h]
      exact List.mem_cons_self _ _
    · simp only [goGet, h0, if_false] at h
      exact List.mem_cons_of_mem _ (ih h)

/-! ### The basic pass records health-checked devices only -/

theorem BasicProvenance.of_same_results {env : Env} {names : List String} {r r' : Runner}
    (h : BasicProvenance env names r) (hd : r'.devices = r.devices)
    (hj : r'.jsonDevices = r.jsonDevices) (hi : r'.incompleteData = r.incompleteData) :
    BasicProvenance env names r' := by
  unfold BasicProvenance at *
  rw [hd, hj, hi]
  exact h

theorem basicCritical_provenance {env : Env} {names : List String} {r : Runner}
    (jsonRunner : Bool) {name raw : String} {dp : DeviceParser}
    (h : BasicProvenance env names r) (hn : name ∈ names)
    (hresp : basicResponse env name = some (raw, dp)) (hs : dp.SmartStatus.isSome = true) :
    BasicProvenance env names (basicCritical jsonRunner name raw dp r).2 := by
  unfold basicCritical
  by_cases hm : r.muxLocked = true
  · simp only [hm, if_true]
    exact h
  · simp only [hm, if_false]
    by_cases hf : ({ r with muxLocked := true } : Runner).isFound dp.SerialNumber = false
    · simp only [hf, if_true]
      by_cases h4 : dp.Smartctl.ExitStatus = 4
      · simp only [h4, if_true]
        obtain ⟨h1, h2, h3⟩ := h
        refine ⟨h1, h2, ?_⟩
        intro n hn'
        change n ∈ r.incompleteData ++ [name] at hn'
        simp only [List.mem_append, List.mem_singleton] at hn'
        rcases hn' with hn' | hn'
        · exact h3 n hn'
        · subst hn'
          exact ⟨hn, raw, dp, hresp, hs⟩
      · simp only [h4, if_false]
        cases jsonRunner with
        | true =>
          rw [if_pos rfl]
          obtain ⟨h1, h2, h3⟩ := h
          refine ⟨h1, ?_, h3⟩
          intro kv hkv
          change kv ∈ goSet r.jsonDevices name raw at hkv
          rcases mem_goSet _ _ _ _ hkv with hkv | hkv
          · subst hkv
            exact ⟨hn, dp, hresp, hs⟩
          · exact h2 kv hkv
        | false =>
          rw [if_neg Bool.false_ne_true]
          obtain ⟨h1, h2, h3⟩ := h
          refine ⟨?_, h2, h3⟩
          intro d hd
          change d ∈ r.devices ++ [dp] at hd
          simp only [List.mem_append, List.mem_singleton] at hd
          rcases hd with hd | hd
          · exact h1 d hd
          · subst hd
            exact ⟨hs, name, hn, raw, hresp⟩
    · simp only [hf, if_false]
      exact h

theorem basicIteration_provenance {env : Env} {names : List String} {r : Runner}
    (jsonRunner : Bool) {name : String}
    (h : BasicProvenance env names r) (hn : name ∈ names) :
    BasicProvenance env names (basicIteration env jsonRunner name r).2 := by
  have hlog : BasicProvenance env names { r with calls := r.calls ++ [basicArgs name] } :=
    h.of_same_results rfl rfl rfl
  cases hexec : env.executeSmartctl (basicArgs name) false with
  | error e =>
    simp only [basicIteration, hexec]
    exact hlog.of_same_results rfl rfl rfl
  | ok raw =>
    cases hdec : env.unmarshalDevice raw with
    | error e =>
      simp only [basicIteration, hexec, hdec]
      exact hlog.of_same_results rfl rfl rfl
    | ok dp =>
      have hresp : basicResponse env name = some (raw, dp) := by
        simp only [basicResponse, hexec, hdec]
      cases hce : checkErr dp with
      | some e =>
        simp only [basicIteration, hexec, hdec, hce]
        exact hlog.of_same_results rfl rfl rfl
      | none =>
        cases hst : dp.SmartStatus with
        | none =>
          simp only [basicIteration, hexec, hdec, hce, hst]
          exact hlog
        | some st =>
          simp only [basicIteration, hexec, hdec, hce, hst]
          exact basicCritical_provenance jsonRunner hlog hn hresp (by rw [hst]; rfl)

theorem getBasicDevices_provenance (env : Env) (jsonRunner : Bool) (names0 : List String) :
    ∀ (names : List String) (r : Runner), (∀ n ∈ names, n ∈ names0) →
      BasicProvenance env names0 r →
      BasicProvenance env names0 (getBasicDevices env jsonRunner names r).2 := by
  intro names
  induction names with
  | nil =>
    intro r _ h
    exact h
  | cons name rest ih =>
    intro r hsub h
    have hstep := basicIteration_provenance (r := r) jsonRunner h (hsub name (List.mem_cons_self _ _))
    unfold getBasicDevices
    rcases hit : basicIteration env jsonRunner name r with ⟨flow, r'⟩
    rw [hit] at hstep
    cases flow with
    | next =>
      exact ih r' (fun n hn => hsub n (List.mem_cons_of_mem _ hn)) hstep
    | exit => exact hstep
    | blocked => exact hstep

/-- C3: after the basic worker loop has processed `names` from the empty runner, every
record of `r.devices`, every entry of `r.jsonDevices` and every name of
`r.incompleteData` comes from a response with a health-status block, and a device whose
response has no health-status block is in none of the three. -/
theorem getBasicDevices_only_health_checked (env : Env) (jsonRunner : Bool)
    (names : List String) :
    BasicProvenance env names (getBasicDevices env jsonRunner names emptyRunner).2
      ∧ ∀ name raw dp, basicResponse env name = some (raw, dp) → dp.SmartStatus = none →
          dp ∉ (getBasicDevices env jsonRunner names emptyRunner).2.devices
          ∧ goGet (getBasicDevices env jsonRunner names emptyRunner).2.jsonDevices name = none
          ∧ name ∉ (getBasicDevices env jsonRunner names emptyRunner).2.incompleteData := by
  have hempty : BasicProvenance env names emptyRunner := by
    refine ⟨?_, ?_, ?_⟩ <;> intro x hx <;> simp [emptyRunner] at hx
  have key := getBasicDevices_provenance env jsonRunner names names emptyRunner
    (fun n hn => hn) hempty
  refine ⟨key, ?_⟩
  intro name raw dp hresp hnone
  obtain ⟨h1, h2, h3⟩ := key
  refine ⟨?_, ?_, ?_⟩
  · intro hmem
    have := (h1 dp hmem).1
    rw [hnone] at this
    simp at this
  · cases hget : goGet (getBasicDevices env jsonRunner names emptyRunner).2.jsonDevices name with
    | none => rfl
    | some v =>
      exfalso
      obtain ⟨_, dp', hresp', hs'⟩ := h2 (name, v) (mem_of_goGet _ _ _ hget)
      simp only at hresp'
      rw [hresp] at hresp'
      injection hresp' with hresp'
      injection hresp' with _ hdp
      rw [← hdp, hnone] at hs'
      simp at hs'
  · intro hmem
    obtain ⟨_, raw', dp', hresp', hs'⟩ := h3 name hmem
    rw [hresp] at hresp'
    injection hresp' with hresp'
    injection hresp' with _ hdp
    rw [← hdp, hnone] at hs'
    simp at hs'

/-! ### One record per serial number -/

theorem SerialInvariant.of_same_devices {r r' : Runner} (h : SerialInvariant r)
    (hd : r'.devices = r.devices)
    (hf : ∀ sn, r.isFound sn = true → r'.isFound sn = true) : SerialInvariant r' := by
  intro dp hdp
  rw [hd] at hdp ⊢
  exact ⟨hf _ (h dp hdp).1, (h dp hdp).2⟩

theorem isFound_goSet (r r' : Runner) (sn x : String)
    (hf : r'.found = goSet r.found sn true) :
    r'.isFound x = true ↔ (sn = x ∨ r.isFound x = true) := by
  unfold Runner.isFound
  rw [hf, goGet_goSet]
  by_cases h : sn = x
  · simp [h]
  · simp [h]

theorem basicCritical_serialInvariant (jsonRunner : Bool) (name raw : String)
    (dp : DeviceParser) (r : Runner) (h : SerialInvariant r) :
    SerialInvariant (basicCritical jsonRunner name raw dp r).2 := by
  unfold basicCritical
  by_cases hm : r.muxLocked = true
  · simp only [hm, if_true]
    exact h
  · simp only [hm, if_false]
    by_cases hf : ({ r with muxLocked := true } : Runner).isFound dp.SerialNumber = false
    · simp only [hf, if_true]
      have hf' : r.isFound dp.SerialNumber = false := hf
      by_cases h4 : dp.Smartctl.ExitStatus = 4
      · simp only [h4, if_true]
        refine h.of_same_devices rfl ?_
        intro sn hsn
        exact (isFound_goSet r _ dp.SerialNumber sn rfl).2 (Or.inr hsn)
      · simp only [h4, if_false]
        cases jsonRunner with
        | true =>
          rw [if_pos rfl]
          refine h.of_same_devices rfl ?_
          intro sn hsn
          exact (isFound_goSet r _ dp.SerialNumber sn rfl).2 (Or.inr hsn)
        | false =>
          rw [if_neg Bool.false_ne_true]
          intro d hd
          change d ∈ r.devices ++ [dp] at hd
          refine ⟨?_, ?_⟩
          · refine (isFound_goSet r _ dp.SerialNumber d.SerialNumber rfl).2 ?_
            simp only [List.mem_append, List.mem_singleton] at hd
            rcases hd with hd | hd
            · exact Or.inr (h d hd).1
            · exact Or.inl (by rw [hd])
          · change ((r.devices ++ [dp]).map (·.SerialNumber)).count d.SerialNumber = 1
            have hnew : (r.devices.map (·.SerialNumber)).count dp.SerialNumber = 0 := by
              rw [List.count_eq_zero]
              intro hmem
              obtain ⟨d', hd', hsn⟩ := List.mem_map.1 hmem
              have := (h d' hd').1
              rw [hsn, hf'] at this
              exact Bool.false_ne_true this
            simp only [List.map_append, List.map_cons, List.map_nil, List.count_append,
              List.count_singleton]
            simp only [List.mem_append, List.mem_singleton] at hd
            rcases hd with hd | hd
            · have hne : ¬ (dp.SerialNumber == d.SerialNumber) = true := by
                intro he
                have he' : dp.SerialNumber = d.SerialNumber := by simpa using he
                have := (h d hd).1
                rw [← he', hf'] at this
                exact Bool.false_ne_true this
              rw [(h d hd).2]
              simp [hne]
            · subst hd
              rw [hnew]
              simp
    · simp only [hf, if_false]
      exact h.of_same_devices rfl (fun sn hsn => hsn)

theorem runCritical_serialInvariant (jsonRunner : Bool) :
    ∀ (steps : List (String × String × DeviceParser)) (r : Runner), SerialInvariant r →
      SerialInvariant (runCritical jsonRunner steps r) := by
  intro steps
  induction steps with
  | nil =>
    intro r h
    exact h
  | cons step rest ih =>
    intro r h
    obtain ⟨name, raw, dp⟩ := step
    exact ih _ (basicCritical_serialInvariant jsonRunner name raw dp r h)

theorem SerialInvariant.pairwise {r : Runner} (h : SerialInvariant r) :
    r.devices.Pairwise (fun a b => a.SerialNumber ≠ b.SerialNumber) := by
  have hnd : (r.devices.map (·.SerialNumber)).Nodup := by
    rw [List.nodup_iff_count_eq_one]
    intro sn hsn
    obtain ⟨d, hd, rfl⟩ := List.mem_map.1 hsn
    exact (h d hd).2
  exact (List.pairwise_map.1 hnd)

/-- C4: every critical section of the basic pass, taken as one atomic step, preserves
the invariant that each serial number of a record in `r.devices` is marked in `r.found`
and occurs in `r.devices` exactly once; so after the critical sections of any responses
in any order, started on the empty runner, the records of `r.devices` have pairwise
distinct serial numbers. -/
theorem basic_pass_one_record_per_serial (jsonRunner : Bool) :
    (∀ (name raw : String) (dp : DeviceParser) (r : Runner), SerialInvariant r →
        SerialInvariant (basicCritical jsonRunner name raw dp r).2)
      ∧ ∀ steps : List (String × String × DeviceParser),
          SerialInvariant (runCritical jsonRunner steps emptyRunner)
          ∧ (runCritical jsonRunner steps emptyRunner).devices.Pairwise
              (fun a b => a.SerialNumber ≠ b.SerialNumber) := by
  have hempty : SerialInvariant emptyRunner := by
    intro dp hdp
    simp [emptyRunner] at hdp
  refine ⟨basicCritical_serialInvariant jsonRunner, fun steps => ?_⟩
  have h := runCritical_serialInvariant jsonRunner steps emptyRunner hempty
  exact ⟨h, h.pairwise⟩

/-! ### The version gate -/

theorem versionCheckNeeded_true {lastVerCheck now1 : ℤ} (now2 : ℤ)
    (h : lastVerCheck = 0 ∨ lastVerCheck + 24 * hour < now1) :
    versionCheckNeeded lastVerCheck now1 now2 = (true, now2) := by
  unfold versionCheckNeeded
  rw [if_pos h]

theorem versionCheckNeeded_false {lastVerCheck now1 : ℤ} (now2 : ℤ)
    (h : ¬ (lastVerCheck = 0 ∨ lastVerCheck + 24 * hour < now1)) :
    versionCheckNeeded lastVerCheck now1 now2 = (false, lastVerCheck) := by
  unfold versionCheckNeeded
  rw [if_neg h]

theorem checkVersion_skipped (env : Env) {lastVerCheck now1 : ℤ} (now2 : ℤ)
    (h : ¬ (lastVerCheck = 0 ∨ lastVerCheck + 24 * hour < now1)) :
    (checkVersion env lastVerCheck now1 now2).result = .ok ()
      ∧ (checkVersion env lastVerCheck now1 now2).lastVerCheck = lastVerCheck
      ∧ (checkVersion env lastVerCheck now1 now2).calls = [] := by
  unfold checkVersion
  simp [versionCheckNeeded_false now2 h]

theorem checkVersion_invokes (env : Env) {lastVerCheck now1 : ℤ} (now2 : ℤ)
    (h : lastVerCheck = 0 ∨ lastVerCheck + 24 * hour < now1) :
    (checkVersion env lastVerCheck now1 now2).lastVerCheck = now2
      ∧ (checkVersion env lastVerCheck now1 now2).calls = ["-j -V"] := by
  unfold checkVersion
  simp only [versionCheckNeeded_true now2 h, Bool.true_eq_false, if_false]
  cases hexec : env.executeSmartctl "-j -V" true with
  | error e => exact ⟨rfl, rfl⟩
  | ok info =>
    cases hdec : env.unmarshalSmartctl info with
    | error e => simp [hdec]
    | ok s => simp [hdec]

/-- C8: with the cached timestamp and the clock explicit (`now1` and `now2` are the two
readings of the clock, equal when the clock stands still), `versionCheckNeeded` answers
true and sets `lastVerCheck` to the reading exactly when `lastVerCheck` is unset (zero)
or the reading is strictly later than `lastVerCheck + 24h`; otherwise it answers false
and keeps `lastVerCheck`, and `checkVersion` returns success without invoking the tool.
A set `lastVerCheck` of 25 hours ago leads to one tool invocation, one of an hour ago to
none. -/
theorem version_gate (env : Env) (lastVerCheck now1 now2 : ℤ) :
    ((versionCheckNeeded lastVerCheck now1 now2).1 = true
        ↔ (lastVerCheck = 0 ∨ lastVerCheck + 24 * hour < now1))
      ∧ ((versionCheckNeeded lastVerCheck now1 now2).1 = true →
          (versionCheckNeeded lastVerCheck now1 now2).2 = now2
          ∧ (checkVersion env lastVerCheck now1 now2).lastVerCheck = now2
          ∧ (checkVersion env lastVerCheck now1 now2).calls = ["-j -V"])
      ∧ ((versionCheckNeeded lastVerCheck now1 now2).1 = false →
          (versionCheckNeeded lastVerCheck now1 now2).2 = lastVerCheck
          ∧ (checkVersion env lastVerCheck now1 now2).result = .ok ()
          ∧ (checkVersion env lastVerCheck now1 now2).lastVerCheck = lastVerCheck
          ∧ (checkVersion env lastVerCheck now1 now2).calls = [])
      ∧ (checkVersion env (now1 - 25 * hour) now1 now2).calls = ["-j -V"]
      ∧ (now1 - 1 * hour ≠ 0 →
          (checkVersion env (now1 - 1 * hour) now1 now2).calls = []
          ∧ (checkVersion env (now1 - 1 * hour) now1 now2).result = .ok ()) := by
  refine ⟨?_, ?_, ?_, ?_, ?_⟩
  · by_cases h : lastVerCheck = 0 ∨ lastVerCheck + 24 * hour < now1
    · rw [versionCheckNeeded_true now2 h]
      exact ⟨fun _ => h, fun _ => rfl⟩
    · rw [versionCheckNeeded_false now2 h]
      exact ⟨fun hc => absurd hc Bool.false_ne_true, fun hc => absurd hc h⟩
  · intro hn
    by_cases h : lastVerCheck = 0 ∨ lastVerCheck + 24 * hour < now1
    · rw [versionCheckNeeded_true now2 h]
      exact ⟨rfl, checkVersion_invokes env now2 h⟩
    · rw [versionCheckNeeded_false now2 h] at hn
      exact absurd hn Bool.false_ne_true
  · intro hn
    by_cases h : lastVerCheck = 0 ∨ lastVerCheck + 24 * hour < now1
    · rw [versionCheckNeeded_true now2 h] at hn
      exact absurd hn.symm Bool.false_ne_true
    · rw [versionCheckNeeded_false now2 h]
      exact ⟨rfl, checkVersion_skipped env now2 h⟩
  · refine (checkVersion_invokes env now2 (Or.inr ?_)).2
    unfold hour
    omega
  · intro hset
    have h : ¬ (now1 - 1 * hour = 0 ∨ now1 - 1 * hour + 24 * hour < now1) := by
      unfold hour at hset ⊢
      omega
    have := checkVersion_skipped env now2 h
    exact ⟨this.2.2, this.1⟩

/-! ### Order of processing -/

theorem basicResponse_eq_some {env : Env} {name raw : String} {dp : DeviceParser}
    (h : basicResponse env name = some (raw, dp)) :
    env.executeSmartctl (basicArgs name) false = .ok raw ∧ env.unmarshalDevice raw = .ok dp := by
  unfold basicResponse at h
  cases hexec : env.executeSmartctl (basicArgs name) false with
  | error e => simp [hexec] at h
  | ok raw' =>
    cases hdec : env.unmarshalDevice raw' with
    | error e => simp [hexec, hdec] at h
    | ok dp' =>
      simp only [hexec, hdec, Option.some.injEq, Prod.mk.injEq] at h
      obtain ⟨h1, h2⟩ := h
      subst h1
      subst h2
      exact ⟨rfl, hdec⟩

theorem Checked.unique {env : Env} {name raw raw' : String} {dp dp' : DeviceParser}
    (h : Checked env name raw dp) (h' : basicResponse env name = some (raw', dp')) :
    raw' = raw ∧ dp' = dp := by
  have := h.1
  rw [h'] at this
  simp only [Option.some.injEq, Prod.mk.injEq] at this
  exact this

theorem BasicDone.of_same_fields {env : Env} {jsonRunner : Bool} {done : List String} {r r' : Runner}
    (h : BasicDone env jsonRunner done r) (hm : r'.muxLocked = r.muxLocked)
    (hi : r'.incompleteData = r.incompleteData) (hf : r'.found = r.found)
    (hd : r'.devices = r.devices) (hj : r'.jsonDevices = r.jsonDevices) :
    BasicDone env jsonRunner done r' := by
  unfold BasicDone Runner.isFound at *
  rw [hm, hi, hf, hd, hj]
  exact h

/-- A name without a health-checked response adds nothing to the description. -/
theorem BasicDone.snoc_unchecked {env : Env} {jsonRunner : Bool} {done : List String}
    {r : Runner} {name : String} (h : BasicDone env jsonRunner done r)
    (hn : ∀ raw dp, ¬ Checked env name raw dp) :
    BasicDone env jsonRunner (done ++ [name]) r := by
  obtain ⟨h1, h2, h3, h4, h5⟩ := h
  refine ⟨h1, h2, ?_, ?_, ?_⟩
  · intro sn
    rw [h3 sn]
    constructor
    · rintro ⟨n, hn', rest⟩
      exact ⟨n, List.mem_append_left _ hn', rest⟩
    · rintro ⟨n, hn', raw, dp, hc, hs⟩
      rcases List.mem_append.1 hn' with hn' | hn'
      · exact ⟨n, hn', raw, dp, hc, hs⟩
      · rw [List.mem_singleton] at hn'
        subst hn'
        exact absurd hc (hn raw dp)
  · intro dp
    rw [h4 dp]
    constructor
    · rintro ⟨hj, n, hn', rest⟩
      exact ⟨hj, n, List.mem_append_left _ hn', rest⟩
    · rintro ⟨hj, n, hn', raw, hc⟩
      rcases List.mem_append.1 hn' with hn' | hn'
      · exact ⟨hj, n, hn', raw, hc⟩
      · rw [List.mem_singleton] at hn'
        subst hn'
        exact absurd hc (hn raw dp)
  · intro k v
    rw [h5 k v]
    constructor
    · rintro ⟨hj, hk, rest⟩
      exact ⟨hj, List.mem_append_left _ hk, rest⟩
    · rintro ⟨hj, hk, dp, hc⟩
      rcases List.mem_append.1 hk with hk | hk
      · exact ⟨hj, hk, dp, hc⟩
      · rw [List.mem_singleton] at hk
        subst hk
        exact absurd hc (hn v dp)

theorem basicCritical_complete {jsonRunner : Bool} {name raw : String} {dp : DeviceParser}
    {r : Runner} (hm : r.muxLocked = false) (hf : r.isFound dp.SerialNumber = false)
    (h4 : dp.Smartctl.ExitStatus ≠ 4) :
    basicCritical jsonRunner name raw dp r
      = (.next,
          if jsonRunner then
            { r with muxLocked := false, found := goSet r.found dp.SerialNumber true,
                     jsonDevices := goSet r.jsonDevices name raw }
          else
            { r with muxLocked := false, found := goSet r.found dp.SerialNumber true,
                     devices := r.devices ++ [dp] }) := by
  have hf' : ({ r with muxLocked := true } : Runner).isFound dp.SerialNumber = false := hf
  unfold basicCritical
  rw [if_neg (by rw [hm]; exact Bool.false_ne_true), if_pos hf', if_neg h4]
  cases jsonRunner with
  | true => rfl
  | false => rfl

/-- A complete answer with a new serial number is recorded, and the mutex is free again. -/
theorem basicCritical_done {env : Env} {jsonRunner : Bool} {done : List String}
    {r : Runner} {name raw : String} {dp : DeviceParser}
    (h : BasicDone env jsonRunner done r) (hc : Checked env name raw dp)
    (h4 : dp.Smartctl.ExitStatus ≠ 4) (hdist : ∀ a ∈ done, DistinctSerial env a name) :
    (basicCritical jsonRunner name raw dp r).1 = .next
      ∧ BasicDone env jsonRunner (done ++ [name]) (basicCritical jsonRunner name raw dp r).2 := by
  obtain ⟨h1, h2, h3, h5, h6⟩ := h
  have hf : r.isFound dp.SerialNumber = false := by
    cases hfound : r.isFound dp.SerialNumber with
    | false => rfl
    | true =>
      obtain ⟨n, hn, raw', dp', hc', hs⟩ := (h3 _).1 hfound
      exact absurd hs (hdist n hn raw' dp' raw dp hc' hc)
  rw [basicCritical_complete h1 hf h4]
  refine ⟨rfl, ?_⟩
  have hfound : ∀ (r' : Runner), r'.found = goSet r.found dp.SerialNumber true → ∀ sn,
      r'.isFound sn = true
        ↔ ∃ n ∈ done ++ [name], ∃ raw dp, Checked env n raw dp ∧ dp.SerialNumber = sn := by
    intro r' hr' sn
    rw [isFound_goSet r r' dp.SerialNumber sn hr', h3 sn]
    constructor
    · rintro (hsn | ⟨n, hn, rest⟩)
      · exact ⟨name, by simp, raw, dp, hc, hsn⟩
      · exact ⟨n, List.mem_append_left _ hn, rest⟩
    · rintro ⟨n, hn, raw', dp', hc', hs⟩
      rcases List.mem_append.1 hn with hn | hn
      · exact Or.inr ⟨n, hn, raw', dp', hc', hs⟩
      · rw [List.mem_singleton] at hn
        subst hn
        obtain ⟨-, hdp⟩ := hc.unique hc'.1
        rw [hdp] at hs
        exact Or.inl hs
  cases jsonRunner with
  | true =>
    rw [if_pos rfl]
    refine ⟨rfl, h2, hfound _ rfl, ?_, ?_⟩
    · intro d
      change d ∈ r.devices ↔ _
      rw [h5 d]
      constructor
      · rintro ⟨hj, _⟩
        exact absurd hj (by simp)
      · rintro ⟨hj, _⟩
        exact absurd hj (by simp)
    · intro k v
      change goGet (goSet r.jsonDevices name raw) k = some v ↔ _
      rw [goGet_goSet]
      by_cases hk : name = k
      · subst hk
        rw [if_pos rfl]
        constructor
        · intro hv
          simp only [Option.some.injEq] at hv
          subst hv
          exact ⟨rfl, by simp, dp, hc⟩
        · rintro ⟨-, -, dp', hc'⟩
          obtain ⟨hraw, -⟩ := hc.unique hc'.1
          rw [hraw]
      · rw [if_neg hk, h6 k v]
        constructor
        · rintro ⟨hj, hk', rest⟩
          exact ⟨hj, List.mem_append_left _ hk', rest⟩
        · rintro ⟨hj, hk', rest⟩
          rcases List.mem_append.1 hk' with hk' | hk'
          · exact ⟨hj, hk', rest⟩
          · rw [List.mem_singleton] at hk'
            exact absurd hk'.symm hk
  | false =>
    rw [if_neg Bool.false_ne_true]
    refine ⟨rfl, h2, hfound _ rfl, ?_, ?_⟩
    · intro d
      change d ∈ r.devices ++ [dp] ↔ _
      rw [List.mem_append, List.mem_singleton, h5 d]
      constructor
      · rintro (⟨hj, n, hn, rest⟩ | hd)
        · exact ⟨hj, n, List.mem_append_left _ hn, rest⟩
        · subst hd
          exact ⟨rfl, name, by simp, raw, hc⟩
      · rintro ⟨hj, n, hn, raw', hc'⟩
        rcases List.mem_append.1 hn with hn | hn
        · exact Or.inl ⟨hj, n, hn, raw', hc'⟩
        · rw [List.mem_singleton] at hn
          subst hn
          obtain ⟨-, hdp⟩ := hc.unique hc'.1
          exact Or.inr hdp
    · intro k v
      change goGet r.jsonDevices k = some v ↔ _
      rw [h6 k v]
      constructor
      · rintro ⟨hj, _⟩
        exact absurd hj (by simp)
      · rintro ⟨hj, _⟩
        exact absurd hj (by simp)

/-- One iteration of the basic loop on a name whose answer is complete. -/
theorem basicIteration_done {env : Env} {jsonRunner : Bool} {done : List String}
    {r : Runner} {name : String}
    (h : BasicDone env jsonRunner done r) (hok : Responds env name)
    (h4 : NotIncomplete env name) (hdist : ∀ a ∈ done, DistinctSerial env a name) :
    (basicIteration env jsonRunner name r).1 = .next
      ∧ BasicDone env jsonRunner (done ++ [name]) (basicIteration env jsonRunner name r).2 := by
  obtain ⟨raw, dp, hresp, hce⟩ := hok
  obtain ⟨hexec, hdec⟩ := basicResponse_eq_some hresp
  have hlog : BasicDone env jsonRunner done { r with calls := r.calls ++ [basicArgs name] } :=
    h.of_same_fields rfl rfl rfl rfl rfl
  cases hst : dp.SmartStatus with
  | none =>
    simp only [basicIteration, hexec, hdec, hce, hst]
    refine ⟨trivial, hlog.snoc_unchecked ?_⟩
    intro raw' dp' hc'
    have hdp : dp = dp' := by
      have := hc'.1
      rw [hresp] at this
      simp only [Option.some.injEq, Prod.mk.injEq] at this
      exact this.2
    have := hc'.2
    rw [← hdp, hst] at this
    simp at this
  | some st =>
    simp only [basicIteration, hexec, hdec, hce, hst]
    have hc : Checked env name raw dp := ⟨hresp, by rw [hst]; rfl⟩
    exact basicCritical_done hlog hc (h4 raw dp hc) hdist

theorem getBasicDevices_done (env : Env) (jsonRunner : Bool) :
    ∀ (names done : List String) (r : Runner), BasicDone env jsonRunner done r →
      (∀ n ∈ names, Responds env n) → (∀ n ∈ names, NotIncomplete env n) →
      (done ++ names).Pairwise (DistinctSerial env) →
      (getBasicDevices env jsonRunner names r).1 = .drained
        ∧ BasicDone env jsonRunner (done ++ names) (getBasicDevices env jsonRunner names r).2 := by
  intro names
  induction names with
  | nil =>
    intro done r h _ _ _
    rw [List.append_nil]
    exact ⟨rfl, h⟩
  | cons name rest ih =>
    intro done r h hok h4 hpw
    have hdist : ∀ a ∈ done, DistinctSerial env a name := by
      intro a ha
      exact (List.pairwise_append.1 hpw).2.2 a ha name (List.mem_cons_self _ _)
    obtain ⟨hflow, hstep⟩ := basicIteration_done h (hok name (List.mem_cons_self _ _))
      (h4 name (List.mem_cons_self _ _)) hdist
    unfold getBasicDevices
    rcases hit : basicIteration env jsonRunner name r with ⟨flow, r'⟩
    rw [hit] at hflow hstep
    simp only at hflow hstep
    subst hflow
    simp only
    have hpw' : ((done ++ [name]) ++ rest).Pairwise (DistinctSerial env) := by
      rw [List.append_assoc]
      exact hpw
    have := ih (done ++ [name]) r' hstep (fun n hn => hok n (List.mem_cons_of_mem _ hn))
      (fun n hn => h4 n (List.mem_cons_of_mem _ hn)) hpw'
    rw [List.append_assoc] at this
    exact this

theorem DistinctSerial.symm {env : Env} {a b : String} (h : DistinctSerial env a b) :
    DistinctSerial env b a :=
  fun rb db ra da hb ha => (h ra da rb db ha hb).symm

theorem BasicDone.empty (env : Env) (jsonRunner : Bool) :
    BasicDone env jsonRunner [] emptyRunner := by
  refine ⟨rfl, rfl, ?_, ?_, ?_⟩
  · intro sn
    simp [emptyRunner, Runner.isFound, goGet]
  · intro dp
    simp [emptyRunner]
  · intro k v
    simp [emptyRunner, goGet]

/-- C9, as stated, fails: two devices that report the same serial number, neither
response failing. Processed in one order the result set holds the record of the first
device, in the other order that of the second. -/
theorem basic_results_depend_on_order :
    List.Perm ["/dev/sda", "/dev/sdb"] ["/dev/sdb", "/dev/sda"]
      ∧ (∀ n ∈ ["/dev/sda", "/dev/sdb"], Responds sameSerial n)
      ∧ getBasicDevices sameSerial false ["/dev/sda", "/dev/sdb"] emptyRunner
          = (.drained,
              { muxLocked := false, err := [],
                devices := [{ sampleRecord "X1" 0 true with ModelName := "first" }],
                jsonDevices := [], found := [("X1", true)], incompleteData := [],
                calls := ["-a /dev/sda -j", "-a /dev/sdb -j"] })
      ∧ getBasicDevices sameSerial false ["/dev/sdb", "/dev/sda"] emptyRunner
          = (.drained,
              { muxLocked := false, err := [],
                devices := [{ sampleRecord "X1" 0 true with ModelName := "second" }],
                jsonDevices := [], found := [("X1", true)], incompleteData := [],
                calls := ["-a /dev/sdb -j", "-a /dev/sda -j"] })
      ∧ ¬ (∀ dp,
            dp ∈ (getBasicDevices sameSerial false ["/dev/sda", "/dev/sdb"] emptyRunner).2.devices
              ↔ dp ∈ (getBasicDevices sameSerial false ["/dev/sdb", "/dev/sda"]
                        emptyRunner).2.devices) := by
  refine ⟨List.Perm.swap _ _ _, ?_, by decide, by decide, ?_⟩
  · intro n hn
    simp only [List.mem_cons, List.mem_singleton, List.not_mem_nil, or_false] at hn
    rcases hn with rfl | rfl
    · exact ⟨"json sda", { sampleRecord "X1" 0 true with ModelName := "first" }, rfl, by decide⟩
    · exact ⟨"json sdb", { sampleRecord "X1" 0 true with ModelName := "second" }, rfl, by decide⟩
  · intro h
    have h1 := (h { sampleRecord "X1" 0 true with ModelName := "first" }).1 (by decide)
    revert h1
    decide

/-- C9, amended: when no response fails, the health-checked responses carry pairwise
distinct serial numbers and none of them has exit status 4, the basic loop drains the
queue in either order of a permutation of the names, and both orders yield the same
records in `r.devices`, the same entries in `r.jsonDevices` and the same (empty) list
of incomplete names. -/
theorem basic_results_order_independent (env : Env) (jsonRunner : Bool)
    (names names' : List String) (hperm : names.Perm names')
    (hok : ∀ n ∈ names, Responds env n)
    (hserial : names.Pairwise (DistinctSerial env))
    (hcomplete : ∀ n ∈ names, NotIncomplete env n) :
    (getBasicDevices env jsonRunner names emptyRunner).1 = .drained
      ∧ (getBasicDevices env jsonRunner names' emptyRunner).1 = .drained
      ∧ (∀ dp, dp ∈ (getBasicDevices env jsonRunner names emptyRunner).2.devices
          ↔ dp ∈ (getBasicDevices env jsonRunner names' emptyRunner).2.devices)
      ∧ (∀ k, goGet (getBasicDevices env jsonRunner names emptyRunner).2.jsonDevices k
          = goGet (getBasicDevices env jsonRunner names' emptyRunner).2.jsonDevices k)
      ∧ (∀ n, n ∈ (getBasicDevices env jsonRunner names emptyRunner).2.incompleteData
          ↔ n ∈ (getBasicDevices env jsonRunner names' emptyRunner).2.incompleteData) := by
  have hserial' : names'.Pairwise (DistinctSerial env) :=
    (hperm.pairwise_iff (fun h => DistinctSerial.symm h)).1 hserial
  obtain ⟨hd1, -, hi1, -, hdev1, hjs1⟩ := getBasicDevices_done env jsonRunner names []
    emptyRunner (BasicDone.empty env jsonRunner) hok hcomplete (by simpa using hserial)
  obtain ⟨hd2, -, hi2, -, hdev2, hjs2⟩ := getBasicDevices_done env jsonRunner names' []
    emptyRunner (BasicDone.empty env jsonRunner)
    (fun n hn => hok n (hperm.mem_iff.2 hn))
    (fun n hn => hcomplete n (hperm.mem_iff.2 hn)) (by simpa using hserial')
  simp only [List.nil_append] at hdev1 hjs1 hdev2 hjs2
  refine ⟨hd1, hd2, ?_, ?_, ?_⟩
  · intro dp
    rw [hdev1 dp, hdev2 dp]
    constructor
    · rintro ⟨hj, n, hn, rest⟩
      exact ⟨hj, n, hperm.mem_iff.1 hn, rest⟩
    · rintro ⟨hj, n, hn, rest⟩
      exact ⟨hj, n, hperm.mem_iff.2 hn, rest⟩
  · intro k
    apply Option.ext
    intro v
    simp only [Option.mem_def]
    rw [hjs1 k v, hjs2 k v]
    constructor
    · rintro ⟨hj, hk, rest⟩
      exact ⟨hj, hperm.mem_iff.1 hk, rest⟩
    · rintro ⟨hj, hk, rest⟩
      exact ⟨hj, hperm.mem_iff.2 hk, rest⟩
  · intro n
    rw [hi1, hi2]

theorem twoHealthy_checked {n raw : String} {dp : DeviceParser}
    (hn : n = "/dev/sda" ∨ n = "/dev/sdb") (h : Checked twoHealthy n raw dp) :
    (n = "/dev/sda" ∧ dp = sampleRecord "S1" 0 true)
      ∨ (n = "/dev/sdb" ∧ dp = sampleRecord "S2" 0 true) := by
  rcases hn with rfl | rfl
  · left
    have h1 : basicResponse twoHealthy "/dev/sda"
        = some ("json sda", sampleRecord "S1" 0 true) := rfl
    have := h.1
    rw [h1] at this
    simp only [Option.some.injEq, Prod.mk.injEq] at this
    exact ⟨rfl, this.2.symm⟩
  · right
    have h1 : basicResponse twoHealthy "/dev/sdb"
        = some ("json sdb", sampleRecord "S2" 0 true) := rfl
    have := h.1
    rw [h1] at this
    simp only [Option.some.injEq, Prod.mk.injEq] at this
    exact ⟨rfl, this.2.symm⟩

theorem basic_results_order_independent_witness :
    (getBasicDevices twoHealthy false ["/dev/sda", "/dev/sdb"] emptyRunner).1 = .drained
      ∧ (getBasicDevices twoHealthy false ["/dev/sdb", "/dev/sda"] emptyRunner).1 = .drained
      ∧ (∀ dp,
          dp ∈ (getBasicDevices twoHealthy false ["/dev/sda", "/dev/sdb"] emptyRunner).2.devices
          ↔ dp ∈ (getBasicDevices twoHealthy false ["/dev/sdb", "/dev/sda"]
                    emptyRunner).2.devices)
      ∧ (∀ k,
          goGet (getBasicDevices twoHealthy false ["/dev/sda", "/dev/sdb"]
                  emptyRunner).2.jsonDevices k
          = goGet (getBasicDevices twoHealthy false ["/dev/sdb", "/dev/sda"]
                    emptyRunner).2.jsonDevices k)
      ∧ (∀ n,
          n ∈ (getBasicDevices twoHealthy false ["/dev/sda", "/dev/sdb"]
                emptyRunner).2.incompleteData
          ↔ n ∈ (getBasicDevices twoHealthy false ["/dev/sdb", "/dev/sda"]
                  emptyRunner).2.incompleteData) := by
  refine basic_results_order_independent twoHealthy false ["/dev/sda", "/dev/sdb"]
    ["/dev/sdb", "/dev/sda"] (List.Perm.swap _ _ _) ?_ ?_ ?_
  · intro n hn
    simp only [List.mem_cons, List.mem_singleton, List.not_mem_nil, or_false] at hn
    rcases hn with rfl | rfl
    · exact ⟨"json sda", sampleRecord "S1" 0 true, rfl, by decide⟩
    · exact ⟨"json sdb", sampleRecord "S2" 0 true, rfl, by decide⟩
  · refine List.pairwise_cons.2 ⟨?_, List.pairwise_singleton _ _⟩
    intro b hb ra da rb db ha hb'
    rw [List.mem_singleton] at hb
    rcases twoHealthy_checked (Or.inl rfl) ha with ⟨-, rfl⟩ | ⟨hne, -⟩
    · rcases twoHealthy_checked (Or.inr hb) hb' with ⟨hne, -⟩ | ⟨-, rfl⟩
      · rw [hb] at hne
        exact absurd hne (by decide)
      · decide
    · exact absurd hne (by decide)
  · intro n hn raw dp hc
    simp only [List.mem_cons, List.mem_singleton, List.not_mem_nil, or_false] at hn
    rcases twoHealthy_checked hn hc with ⟨-, rfl⟩ | ⟨-, rfl⟩ <;> decide

/-! ### Where the mutex stays locked -/

/-- With the mutex free, a response with a health-status block, exit status 4 and a
serial number not yet marked is filed as incomplete: name appended, serial number
marked, result set untouched. The mutex is still held afterwards. -/
theorem basicCritical_incomplete (jsonRunner : Bool) (name raw : String) (dp : DeviceParser)
    (r : Runner) (hm : r.muxLocked = false) (hf : r.isFound dp.SerialNumber = false)
    (h4 : dp.Smartctl.ExitStatus = 4) :
    basicCritical jsonRunner name raw dp r
      = (.next, { r with muxLocked := true, found := goSet r.found dp.SerialNumber true,
                         incompleteData := r.incompleteData ++ [name] }) := by
  have hf' : ({ r with muxLocked := true } : Runner).isFound dp.SerialNumber = false := hf
  unfold basicCritical
  rw [if_neg (by rw [hm]; exact Bool.false_ne_true), if_pos hf', if_pos h4]

/-- An iteration of the basic loop that starts with the mutex free ends with the mutex
held exactly on the exit-status-4 path. -/
theorem basicIteration_mutex (env : Env) (jsonRunner : Bool) (name : String) (r : Runner)
    (hm : r.muxLocked = false) :
    (basicIteration env jsonRunner name r).2.muxLocked = true
      ↔ ∃ raw dp, Checked env name raw dp ∧ checkErr dp = none
          ∧ r.isFound dp.SerialNumber = false ∧ dp.Smartctl.ExitStatus = 4 := by
  cases hexec : env.executeSmartctl (basicArgs name) false with
  | error e =>
    simp only [basicIteration, hexec, hm, Bool.false_eq_true, false_iff]
    rintro ⟨raw, dp, hc, -⟩
    have := (basicResponse_eq_some hc.1).1
    rw [hexec] at this
    cases this
  | ok raw =>
    cases hdec : env.unmarshalDevice raw with
    | error e =>
      simp only [basicIteration, hexec, hdec, hm, Bool.false_eq_true, false_iff]
      rintro ⟨raw', dp, hc, -⟩
      obtain ⟨h1, h2⟩ := basicResponse_eq_some hc.1
      rw [hexec] at h1
      cases h1
      rw [hdec] at h2
      cases h2
    | ok dp =>
      have hresp : basicResponse env name = some (raw, dp) := by
        simp only [basicResponse, hexec, hdec]
      have huniq : ∀ raw' dp', Checked env name raw' dp' → dp' = dp := by
        intro raw' dp' hc
        have := hc.1
        rw [hresp] at this
        simp only [Option.some.injEq, Prod.mk.injEq] at this
        exact this.2.symm
      cases hce : checkErr dp with
      | some e =>
        simp only [basicIteration, hexec, hdec, hce, hm, Bool.false_eq_true, false_iff]
        rintro ⟨raw', dp', hc, hce', -⟩
        rw [huniq raw' dp' hc, hce] at hce'
        cases hce'
      | none =>
        cases hst : dp.SmartStatus with
        | none =>
          simp only [basicIteration, hexec, hdec, hce, hst, hm, Bool.false_eq_true, false_iff]
          rintro ⟨raw', dp', hc, -⟩
          have := hc.2
          rw [huniq raw' dp' hc, hst] at this
          simp at this
        | some st =>
          simp only [basicIteration, hexec, hdec, hce, hst]
          have hc : Checked env name raw dp := ⟨hresp, by rw [hst]; rfl⟩
          have hm' : ({ r with calls := r.calls ++ [basicArgs name] } : Runner).muxLocked = false := hm
          cases hf : r.isFound dp.SerialNumber with
          | true =>
            have hf' : ({ r with muxLocked := true, calls := r.calls ++ [basicArgs name] } :
                Runner).isFound dp.SerialNumber = true := hf
            unfold basicCritical
            rw [if_neg (by rw [hm']; exact Bool.false_ne_true), if_neg (by rw [hf']; simp)]
            simp only [Bool.false_eq_true, false_iff]
            rintro ⟨raw', dp', hc', -, hnf, -⟩
            rw [huniq raw' dp' hc', hf] at hnf
            cases hnf
          | false =>
            by_cases h4 : dp.Smartctl.ExitStatus = 4
            · rw [basicCritical_incomplete jsonRunner name raw dp _ hm' hf h4]
              simp only [true_iff]
              exact ⟨raw, dp, hc, hce, hf, h4⟩
            · rw [basicCritical_complete hm' hf h4]
              have hfree : (if jsonRunner = true then
                    ({ r with calls := r.calls ++ [basicArgs name], muxLocked := false,
                              found := goSet r.found dp.SerialNumber true,
                              jsonDevices := goSet r.jsonDevices name raw } : Runner)
                  else
                    { r with calls := r.calls ++ [basicArgs name], muxLocked := false,
                             found := goSet r.found dp.SerialNumber true,
                             devices := r.devices ++ [dp] }).muxLocked = false := by
                cases jsonRunner <;> rfl
              constructor
              · intro hl
                rw [hfree] at hl
                cases hl
              · rintro ⟨raw', dp', hc', -, -, h4'⟩
                rw [huniq raw' dp' hc'] at h4'
                exact absurd h4' h4

/-! ### Evaluations at concrete tool answers -/

/-- C5: two devices answer with a health-status block, exit status 4 and serial numbers
of their own. The first is filed in `r.incompleteData`; when the second is processed its
serial number is not yet marked, yet the worker stops inside `r.mux.Lock()`, the name is
not appended, the serial number is not marked, and `execute` never gets to the RAID
candidates. -/
theorem second_incomplete_device_is_lost :
    basicResponse twoIncomplete "/dev/sdb" = some ("json sdb", sampleRecord "S2" 4 true)
      ∧ (basicIteration twoIncomplete false "/dev/sda" emptyRunner).2.isFound "S2" = false
      ∧ (basicIteration twoIncomplete false "/dev/sda" emptyRunner).2.incompleteData
          = ["/dev/sda"]
      ∧ (basicIteration twoIncomplete false "/dev/sdb"
          (basicIteration twoIncomplete false "/dev/sda" emptyRunner).2).1 = .blocked
      ∧ (basicIteration twoIncomplete false "/dev/sdb"
          (basicIteration twoIncomplete false "/dev/sda" emptyRunner).2).2.incompleteData
          = ["/dev/sda"]
      ∧ (basicIteration twoIncomplete false "/dev/sdb"
          (basicIteration twoIncomplete false "/dev/sda" emptyRunner).2).2.isFound "S2" = false
      ∧ execute twoIncomplete false
          = .hung { muxLocked := true, err := [], devices := [], jsonDevices := [],
                    found := [("S1", true)], incompleteData := ["/dev/sda"],
                    calls := ["-a /dev/sda -j", "-a /dev/sdb -j"] } := by
  refine ⟨?_, ?_, ?_, ?_, ?_, ?_, ?_⟩ <;> decide

/-- C6: one RAID candidate, every query answered without failure. The one worker issues
the query of the `cciss` task with index 2 and that of the `megaraid` task with index 3:
the index variable is not reset between tasks. -/
theorem raid_index_carries_over :
    raidTasks (raidCandidates [{ Name := "/dev/sda", DevType := "sat" }] [])
        = [⟨"/dev/sda", "3ware"⟩, ⟨"/dev/sda", "areca"⟩, ⟨"/dev/sda", "cciss"⟩,
           ⟨"/dev/sda", "megaraid"⟩, ⟨"/dev/sda", "sat"⟩]
      ∧ execute quietRaid false
          = .returned { muxLocked := false, err := [], devices := [], jsonDevices := [],
                        found := [], incompleteData := [],
                        calls := ["-a /dev/sda -d 3ware,0 -j ", "-a /dev/sda -d areca,1 -j ",
                                  "-a /dev/sda -d cciss,2 -j ", "-a /dev/sda -d megaraid,3 -j ",
                                  "-a /dev/sda -d sat -j "] }
      ∧ raidArgs ⟨"/dev/sda", "cciss"⟩ 0 = "-a /dev/sda -d cciss,0 -j "
      ∧ raidArgs ⟨"/dev/sda", "cciss"⟩ 0
          ∉ (getRaidDevices quietRaid false
              (raidTasks (raidCandidates [{ Name := "/dev/sda", DevType := "sat" }] []))
              emptyRunner).2.calls := by
  refine ⟨?_, ?_, ?_, ?_⟩ <;> decide

/-- C7: the tool answers `/dev/sda -d 3ware,0` and `/dev/sda -d 3ware,1` with a
health-status block and fails for `/dev/sda -d 3ware,2`. The RAID pass queries index 0,
goes on to the `areca` task, and returns: `3ware,1` is never queried and the result set
holds the record `/dev/sda 3ware,0` only. -/
theorem raid_member_one_never_queried :
    (∀ j ∈ [(0 : ℤ), 1], ∃ raw dp,
        twoMembers.executeSmartctl (raidArgs ⟨"/dev/sda", "3ware"⟩ j) false = .ok raw
        ∧ twoMembers.unmarshalDevice raw = .ok dp ∧ checkErr dp = none
        ∧ dp.SmartStatus.isSome = true)
      ∧ twoMembers.executeSmartctl (raidArgs ⟨"/dev/sda", "3ware"⟩ 2) false
          = .error "exit status 1"
      ∧ execute twoMembers false
          = .returned { muxLocked := false, err := [],
                        devices := [{ sampleRecord "M0" 0 true with
                                      Info := { Name := "/dev/sda 3ware,0", DevType := "sat" } }],
                        jsonDevices := [], found := [], incompleteData := [],
                        calls := ["-a /dev/sda -d 3ware,0 -j ", "-a /dev/sda -d areca,1 -j "] }
      ∧ execute twoMembers true
          = .returned { muxLocked := false, err := [], devices := [],
                        jsonDevices := [("/dev/sda 3ware,0", "json 0")], found := [],
                        incompleteData := [],
                        calls := ["-a /dev/sda -d 3ware,0 -j ", "-a /dev/sda -d areca,1 -j "] } := by
  refine ⟨?_, ?_, ?_, ?_⟩
  · intro j hj
    simp only [List.mem_cons, List.mem_singleton, List.not_mem_nil, or_false] at hj
    rcases hj with rfl | rfl
    · exact ⟨"json 0", sampleRecord "M0" 0 true, rfl, rfl, by decide, by decide⟩
    · exact ⟨"json 1", sampleRecord "M1" 0 true, rfl, rfl, by decide, by decide⟩
  · rfl
  · decide
  · decide

/-- C10: an iteration of the basic loop that starts with the mutex free and meets exit
status 4 goes on to the next item with the mutex held, and an iteration of the RAID loop
that starts with the mutex free and records a `sat` device returns with the mutex
held. -/
theorem mutex_left_locked :
    emptyRunner.muxLocked = false
      ∧ (basicIteration twoIncomplete false "/dev/sda" emptyRunner).1 = .next
      ∧ (basicIteration twoIncomplete false "/dev/sda" emptyRunner).2.muxLocked = true
      ∧ (raidIteration satOnly false ⟨"/dev/sda", "sat"⟩ 0 emptyRunner).1 = .exit
      ∧ (raidIteration satOnly false ⟨"/dev/sda", "sat"⟩ 0 emptyRunner).2.2.muxLocked = true := by
  refine ⟨?_, ?_, ?_, ?_, ?_⟩ <;> decide

end Smart
